import Mathlib

/-!
# semver-resource, `driver/git_tag.go`: tag-based version resolution

A shallow embedding of `currentVersion`, `GitTagDriver.readVersion`,
`GitTagDriver.writeVersion` and `GitTagDriver.setUpRepo`, together with the
parts of `github.com/blang/semver` and of the Go standard library they call.

Go strings are modelled as lists of Unicode code points (`GoString`), i.e. as
valid UTF-8 text; on such text byte-wise prefix, substring and ordering tests
coincide with the code-point-wise ones used here.

The three driver methods run subprocesses and touch the file system. Each is
modelled as a function of the package-level variable `gitRepoDir`, the driver,
its arguments, and the results (combined output and error) of the commands and
checks it may perform, one result per call site. Besides the Go return values
a method yields the list of actions it performed, in program order: commands
run, `os.Stat` calls and writes to `os.Stderr`. A Go `error` that is `nil` is
`none`.
-/

namespace Driver

/-- A Go `string`, as the list of its code points. -/
abbrev GoString := List Char

/-! ## Go standard library: `strings`, `unicode`, `strconv` -/

/-- Go `unicode.IsSpace`: the Latin-1 spaces `\t \n \v \f \r`, space, U+0085,
U+00A0, and the other code points with the White_Space property. -/
def isSpace (c : Char) : Bool :=
  let n := c.toNat
  n == 0x09 || n == 0x0A || n == 0x0B || n == 0x0C || n == 0x0D || n == 0x20 ||
  n == 0x85 || n == 0xA0 || n == 0x1680 || (0x2000 ≤ n && n ≤ 0x200A) ||
  n == 0x2028 || n == 0x2029 || n == 0x202F || n == 0x205F || n == 0x3000

/-- Go `strings.TrimSpace`: drop leading and trailing white space. -/
def TrimSpace (s : GoString) : GoString :=
  ((s.dropWhile isSpace).reverse.dropWhile isSpace).reverse

/-- Go `strings.HasPrefix s p`. -/
def HasPrefix (s p : GoString) : Bool := p.isPrefixOf s

/-- Go `strings.Contains s substr`. -/
def Contains : GoString → GoString → Bool
  | [], substr => substr.isEmpty
  | c :: cs, substr => substr.isPrefixOf (c :: cs) || Contains cs substr

/-- Go `strings.Split s sep` for a one-character separator: the pieces of `s`
between the separators; always at least one piece. -/
def Split (sep : Char) : GoString → List GoString
  | [] => [[]]
  | c :: cs =>
    if c = sep then [] :: Split sep cs
    else
      match Split sep cs with
      | [] => [[c]]
      | piece :: pieces => (c :: piece) :: pieces

/-- Position-based cut used for `strings.IndexRune` followed by slicing:
`some (before, after)` around the first `sep`, `none` when `sep` is absent. -/
def cut (sep : Char) : GoString → Option (GoString × GoString)
  | [] => none
  | c :: cs =>
    if c = sep then some ([], cs)
    else
      match cut sep cs with
      | none => none
      | some (before, after) => some (c :: before, after)

/-- Go `strings.SplitN s sep n` for a one-character separator and `n ≥ 0`: at
most `n` pieces, the last one being the unsplit remainder. -/
def SplitN (sep : Char) : Nat → GoString → List GoString
  | 0, _ => []
  | 1, s => [s]
  | n + 2, s =>
    match cut sep s with
    | none => [s]
    | some (before, after) => before :: SplitN sep (n + 1) after

/-- Decimal digit test (membership in semver's `numbers`). -/
def isNumber (c : Char) : Bool := '0'.toNat ≤ c.toNat && c.toNat ≤ '9'.toNat

/-- Membership in semver's `alphanum`: ASCII letters, the hyphen and digits. -/
def isAlphanum (c : Char) : Bool :=
  ('a'.toNat ≤ c.toNat && c.toNat ≤ 'z'.toNat) ||
  ('A'.toNat ≤ c.toNat && c.toNat ≤ 'Z'.toNat) ||
  c == '-' || isNumber c

/-- Value of a string of decimal digits, read left to right from `acc`. -/
def digitsValue : Nat → GoString → Nat
  | acc, [] => acc
  | acc, c :: cs => digitsValue (acc * 10 + (c.toNat - '0'.toNat)) cs

/-- Go `strconv.ParseUint s 10 64`: `none` stands for the syntax error (empty
string or a non-digit) and for the range error (value above `2^64 - 1`). -/
def ParseUint (s : GoString) : Option Nat :=
  if s.isEmpty then none
  else if !s.all isNumber then none
  else if digitsValue 0 s < 2 ^ 64 then some (digitsValue 0 s) else none

/-- Go `strconv.FormatUint n 10`. -/
def FormatUint (n : Nat) : GoString := Nat.toDigits 10 n

/-- Go's built-in string order `a < b` (lexicographic). -/
def stringLt : GoString → GoString → Bool
  | [], [] => false
  | [], _ :: _ => true
  | _ :: _, [] => false
  | a :: as, b :: bs => a < b || (a = b && stringLt as bs)

/-- Go `strings.Join pieces sep` for a one-character separator. -/
def Join (sep : Char) : List GoString → GoString
  | [] => []
  | [s] => s
  | s :: t :: rest => s ++ sep :: Join sep (t :: rest)

/-! ## `github.com/blang/semver`

git_tag.go imports this library (line 12) for `semver.Version`, `semver.Parse`,
`Version.Compare` and `Version.String`; its source is not part of the
repository. The definitions of this section follow the specification's data
model of a version and the library's documented behaviour. -/

/-- Modelled from the spec: `semver.PRVersion` of the imported library
`github.com/blang/semver` (not part of this repository's sources): one
prerelease identifier, numeric or alphanumeric. -/
structure PRVersion where
  VersionStr : GoString
  VersionNum : Nat
  IsNum : Bool
  deriving DecidableEq

/-- Modelled from the spec: `semver.Version` of the imported library, the
data model's {major, minor, patch, prerelease, build-metadata}. -/
structure Version where
  Major : Nat
  Minor : Nat
  Patch : Nat
  Pre : List PRVersion
  Build : List GoString
  deriving DecidableEq

/-- The Go zero value `semver.Version{}` (git_tag.go lines 28, 37, 43),
printed `0.0.0`. -/
def Version.zero : Version := ⟨0, 0, 0, [], []⟩

/-- Modelled from the spec: the errors of the imported library's `Parse`, one
constructor per cause. -/
inductive SemverError
  | emptyString
  | noMajorMinorPatch
  | invalidCharacter (part : GoString)
  | leadingZeroes (part : GoString)
  | parseUint (part : GoString)
  | emptyPrerelease
  | emptyBuild
  deriving DecidableEq

/-- Modelled from the spec: `PRVersion.Compare` of the imported library:
numeric identifiers are lower than alphanumeric ones, numeric ones compare by
value, alphanumeric ones lexicographically. -/
def PRVersion.Compare (v o : PRVersion) : Int :=
  if v.IsNum && !o.IsNum then -1
  else if !v.IsNum && o.IsNum then 1
  else if v.IsNum && o.IsNum then
    if v.VersionNum = o.VersionNum then 0
    else if v.VersionNum > o.VersionNum then 1
    else -1
  else
    if v.VersionStr = o.VersionStr then 0
    else if stringLt o.VersionStr v.VersionStr then 1
    else -1

/-- Modelled from the spec: the loop of the imported library's
`Version.Compare` over the two prerelease lists, with the length comparison
that follows it (a longer list is greater when all shared identifiers are
equal). -/
def comparePre : List PRVersion → List PRVersion → Int
  | [], [] => 0
  | [], _ :: _ => -1
  | _ :: _, [] => 1
  | a :: as, b :: bs =>
    let comp := a.Compare b
    if comp = 0 then comparePre as bs
    else if comp = 1 then 1
    else -1

/-- Modelled from the spec: `Version.Compare` of the imported library,
semantic-version precedence: major, minor, patch numerically; a version
without prerelease is above one with; prerelease identifiers compared in
order; build metadata ignored. Returns `-1`, `0` or `1`. -/
def Version.Compare (v o : Version) : Int :=
  if v.Major ≠ o.Major then (if v.Major > o.Major then 1 else -1)
  else if v.Minor ≠ o.Minor then (if v.Minor > o.Minor then 1 else -1)
  else if v.Patch ≠ o.Patch then (if v.Patch > o.Patch then 1 else -1)
  else if v.Pre.length = 0 ∧ o.Pre.length = 0 then 0
  else if v.Pre.length = 0 ∧ o.Pre.length > 0 then 1
  else if v.Pre.length > 0 ∧ o.Pre.length = 0 then -1
  else comparePre v.Pre o.Pre

/-- Modelled from the spec: `hasLeadingZeroes` of the imported library: longer
than one character and starting with `0`. -/
def hasLeadingZeroes (s : GoString) : Bool :=
  match s with
  | c :: _ :: _ => c == '0'
  | _ => false

/-- Modelled from the spec: the checks `Parse` of the imported library makes
on each of major, minor and patch: digits only, no leading zero, accepted by
`strconv.ParseUint`. -/
def parseNumber (s : GoString) : Except SemverError Nat :=
  if !s.all isNumber then .error (.invalidCharacter s)
  else if hasLeadingZeroes s then .error (.leadingZeroes s)
  else
    match ParseUint s with
    | none => .error (.parseUint s)
    | some n => .ok n

/-- Modelled from the spec: `semver.NewPRVersion` of the imported library. -/
def NewPRVersion (s : GoString) : Except SemverError PRVersion :=
  if s.isEmpty then .error .emptyPrerelease
  else if s.all isNumber then
    if hasLeadingZeroes s then .error (.leadingZeroes s)
    else
      match ParseUint s with
      | none => .error (.parseUint s)
      | some n => .ok ⟨[], n, true⟩
  else if s.all isAlphanum then .ok ⟨s, 0, false⟩
  else .error (.invalidCharacter s)

/-- Modelled from the spec: the prerelease loop of the imported library's
`Parse`. -/
def parsePrerelease : List GoString → Except SemverError (List PRVersion)
  | [] => .ok []
  | s :: rest =>
    match NewPRVersion s with
    | .error e => .error e
    | .ok pr =>
      match parsePrerelease rest with
      | .error e => .error e
      | .ok prs => .ok (pr :: prs)

/-- Modelled from the spec: the build-metadata loop of the imported library's
`Parse`: every identifier is non-empty and alphanumeric. -/
def parseBuild : List GoString → Except SemverError (List GoString)
  | [] => .ok []
  | s :: rest =>
    if s.isEmpty then .error .emptyBuild
    else if !s.all isAlphanum then .error (.invalidCharacter s)
    else
      match parseBuild rest with
      | .error e => .error e
      | .ok bs => .ok (s :: bs)

/-- Modelled from the spec: `semver.Parse` of the imported library: split
into major, minor and the rest at the first two dots; in the rest, build
metadata follows the first `+` and the prerelease the first `-` before it.
The Go result `(Version{}, err)` is `.error err`, `(v, nil)` is `.ok v`. -/
def Parse (s : GoString) : Except SemverError Version :=
  if s.isEmpty then .error .emptyString
  else
    match SplitN '.' 3 s with
    | [majorStr, minorStr, rest] =>
      match parseNumber majorStr with
      | .error e => .error e
      | .ok major =>
        match parseNumber minorStr with
        | .error e => .error e
        | .ok minor =>
          let (patchStr, build) :=
            match cut '+' rest with
            | some (before, after) => (before, Split '.' after)
            | none => (rest, [])
          let (patchStr, prerelease) :=
            match cut '-' patchStr with
            | some (before, after) => (before, Split '.' after)
            | none => (patchStr, [])
          match parseNumber patchStr with
          | .error e => .error e
          | .ok patch =>
            match parsePrerelease prerelease with
            | .error e => .error e
            | .ok pre =>
              match parseBuild build with
              | .error e => .error e
              | .ok bld => .ok ⟨major, minor, patch, pre, bld⟩
    | _ => .error .noMajorMinorPatch

/-- Modelled from the spec: `PRVersion.String` of the imported library. -/
def PRVersion.String (v : PRVersion) : GoString :=
  if v.IsNum then FormatUint v.VersionNum else v.VersionStr

/-- Modelled from the spec: `Version.String` of the imported library:
`<major>.<minor>.<patch>[-<prerelease>][+<build>]`. -/
def Version.String (v : Version) : GoString :=
  FormatUint v.Major ++ '.' :: FormatUint v.Minor ++ '.' :: FormatUint v.Patch
    ++ (if v.Pre.length > 0 then '-' :: Join '.' (v.Pre.map PRVersion.String) else [])
    ++ (if v.Build.length > 0 then '+' :: Join '.' v.Build else [])

/-! ## `driver/git_tag.go` -/

/-- A Go `error` value as produced or passed on by the driver. -/
inductive GoError
  /-- The error `errors.New("Unexpected tag: " + tag)`. -/
  | unexpectedTag (tag : GoString)
  /-- An error of `semver.Parse`. -/
  | semver (e : SemverError)
  /-- An error of `os/exec`, `os.Stat` or `strconv`, identified by its text. -/
  | external (text : GoString)
  /-- The error `fmt.Errorf("Expected either repository (path) or URI to be configured.")`. -/
  | notConfigured
  deriving DecidableEq

/-- The loop body of `currentVersion` over the remaining lines `tags`, `max`
being the running maximum. The Go result `(v, err)` is the pair `(v, err)`
with `none` for `nil`. -/
def currentVersionLoop (tagPrefix : GoString) : List GoString → Version → Version × Option GoError
  | [], max => (max, none)
  | tag :: tags, max =>
    let versionStr := TrimSpace tag
    if versionStr.length = 0 then currentVersionLoop tagPrefix tags max
    else if !HasPrefix versionStr tagPrefix then (Version.zero, some (.unexpectedTag tag))
    else
      match Parse (versionStr.drop tagPrefix.length) with
      | .error err => (Version.zero, some (.semver err))
      | .ok current =>
        if current.Compare max > 0 then currentVersionLoop tagPrefix tags current
        else currentVersionLoop tagPrefix tags max

/-- `currentVersion(prefix, describeOutput)`, git_tag.go lines 25-52. -/
def currentVersion (tagPrefix : GoString) (describeOutput : GoString) : Version × Option GoError :=
  currentVersionLoop tagPrefix (Split '\n' describeOutput) Version.zero


/-- The driver configuration `GitTagDriver`, git_tag.go lines 15-20. -/
structure GitTagDriver where
  Prefix : GoString
  URI : GoString
  Repository : GoString
  Branch : GoString
  deriving DecidableEq

/-- The constant `nothingToDescribe`, git_tag.go line 22. -/
def nothingToDescribe : GoString := "No names found, cannot describe anything".toList

/-- The constant `notAValidObject`, git_tag.go line 23. -/
def notAValidObject : GoString := "Not a valid object name HEAD".toList

/-- An `exec.Cmd` at the moment it is run: working directory (`[]` when the
field `Dir` is left unset) and argument vector. -/
structure Cmd where
  Dir : GoString
  Args : List GoString
  deriving DecidableEq

/-- What a finished subprocess hands back: its combined output and the error
of `Run` / `CombinedOutput` (`none` for `nil`, i.e. exit status 0). -/
structure CmdResult where
  Output : GoString
  Err : Option GoError
  deriving DecidableEq

/-- The externally visible actions of the driver, in program order. -/
inductive Event
  /-- A subprocess run to completion. -/
  | run (c : Cmd)
  /-- A call of `os.Stat`. -/
  | stat (path : GoString)
  /-- A call of `os.Stderr.Write`. -/
  | stderr (text : GoString)
  deriving DecidableEq

/-- The results of the two git commands of `readVersion`. -/
structure ReadResults where
  /-- Error of `gitFetch.Run()`; its output goes straight to the diagnostic stream. -/
  fetch : Option GoError
  /-- Result of `gitDescribe.CombinedOutput()`. -/
  describe : CmdResult

/-- Return values of `readVersion` and the actions it performed. -/
structure ReadOutcome where
  result : Version × Bool × Option GoError
  events : List Event
  deriving DecidableEq

/-- `GitTagDriver.readVersion`, git_tag.go lines 54-90, as a function of the
global `gitRepoDir`, the driver and the results of its two commands. -/
def readVersion (gitRepoDir : GoString) (driver : GitTagDriver) (r : ReadResults) : ReadOutcome :=
  let gitFetch : Cmd := ⟨gitRepoDir, ["git".toList, "fetch".toList, "--tags".toList]⟩
  match r.fetch with
  | some err => ⟨(Version.zero, false, some err), [.run gitFetch]⟩
  | none =>
    let args₀ : List GoString := ["git".toList, "tag".toList]
    let args₁ :=
      if driver.Branch ≠ [] then args₀ ++ ["--merged=origin/".toList ++ driver.Branch] else args₀
    let args₂ := args₁ ++ ["-l".toList, driver.Prefix ++ "*".toList]
    let gitDescribe : Cmd := ⟨gitRepoDir, args₂⟩
    let describeOutputStr := r.describe.Output
    match r.describe.Err with
    | some err =>
      if Contains describeOutputStr nothingToDescribe ||
          Contains describeOutputStr notAValidObject then
        ⟨(Version.zero, false, none),
          [.run gitFetch, .run gitDescribe, .stderr describeOutputStr]⟩
      else
        ⟨(Version.zero, false, some err),
          [.run gitFetch, .run gitDescribe, .stderr describeOutputStr]⟩
    | none =>
      match currentVersion driver.Prefix describeOutputStr with
      | (_, some err) =>
        ⟨(Version.zero, false, some err),
          [.run gitFetch, .run gitDescribe, .stderr describeOutputStr]⟩
      | (version, none) => ⟨(version, true, none), [.run gitFetch, .run gitDescribe]⟩

/-- A value stored in the `params` map (`interface{}`): a string, or anything
else (the `nil` interface included). -/
inductive GoValue
  | str (s : GoString)
  | other
  deriving DecidableEq

/-- The argument `params map[string]interface{}`: `none` is the `nil` map,
`some m` a non-nil map given by its key/value pairs. -/
abbrev Params := Option (List (GoString × GoValue))

/-- Normal return or run-time panic of a Go function. -/
inductive Outcome (α : Type)
  | returned (a : α)
  | panicked
  deriving DecidableEq

/-- What `writeVersion` uses and this file does not define: the environment,
two standard-library functions, and the two rejection markers, which
git_tag.go references but another file of the package declares. -/
structure WriteContext where
  Getenv : GoString → GoString
  pathJoin : GoString → GoString → GoString
  Unquote : GoString → Except GoError GoString
  pushRejectedString : GoString
  pushRemoteRejectedString : GoString

/-- The results of the git commands of `writeVersion`, one per call site. -/
structure WriteResults where
  /-- Result of `git fetch --tags --dry-run --depth=1`. -/
  fetch : CmdResult
  /-- Result of `git --git-dir=<repo>/.git log -1 --pretty=format:"%H"`. -/
  log : CmdResult
  /-- Result of `git ls-remote origin <at>`. -/
  lsRemote : CmdResult
  /-- Result of `git tag --force --annotate --message <msg> <version> <headRef>`. -/
  tag : CmdResult
  /-- Result of `git ls-remote origin refs/tags/<version>`. -/
  showTag : CmdResult
  /-- Result of `git push origin :refs/tags/<version>`. -/
  deleteTag : CmdResult
  /-- Result of `git push origin <version>`. -/
  pushTag : CmdResult

/-- Return values of `writeVersion` (or a panic) and the actions performed. -/
structure WriteOutcome where
  result : Outcome (Bool × Option GoError)
  events : List Event
  deriving DecidableEq

/-- The annotation message of `writeVersion`, git_tag.go lines 93-97; the
`\n` of the format string are a backslash followed by `n`. -/
def tagMessage (ctx : WriteContext) : GoString :=
  "\"Pipeline: ".toList ++ ctx.Getenv "BUILD_PIPELINE_NAME".toList ++
  "\\nJob: ".toList ++ ctx.Getenv "BUILD_JOB_NAME".toList ++
  "\\nBuild: ".toList ++ ctx.Getenv "BUILD_NAME".toList ++ "\"".toList

/-- The ref queried when no `params` are given, git_tag.go lines 132-135. -/
def remoteRef (driver : GitTagDriver) : GoString :=
  if driver.Branch ≠ [] then driver.Branch else "HEAD".toList

/-- The command `git ls-remote origin <at>`, git_tag.go lines 139-140. -/
def lsRemoteCmd (gitRepoDir : GoString) (driver : GitTagDriver) : Cmd :=
  ⟨gitRepoDir, ["git".toList, "ls-remote".toList, "origin".toList, remoteRef driver]⟩

/-- The command `git --git-dir=<repo>/.git log -1 --pretty=format:"%H"`,
git_tag.go lines 117-119; its `Dir` is left unset. -/
def logCmd (ctx : WriteContext) (repoStr : GoString) : Cmd :=
  ⟨[], ["git".toList, "--git-dir=".toList ++ ctx.pathJoin repoStr ".git".toList,
    "log".toList, "-1".toList, "--pretty=format:\"%H\"".toList]⟩

/-- First element of `strings.Split(s, "\t")`: the text before the first tab. -/
def firstTabField (s : GoString) : GoString :=
  match Split '\t' s with
  | field :: _ => field
  | [] => []

/-- Resolution of `headRef`, git_tag.go lines 107-148: the commit reference
or the error to return, or a panic, with the actions performed. -/
def resolveHeadRef (ctx : WriteContext) (gitRepoDir : GoString) (driver : GitTagDriver)
    (params : Params) (r : WriteResults) : Outcome (Except GoError GoString) × List Event :=
  match params with
  | some m =>
    let repo := m.lookup "repo".toList
    let ev₀ : List Event :=
      match repo with
      | none => [.stderr "The repo parameter is required for the git-tag driver".toList]
      | some _ => []
    match repo with
    | some (.str repoStr) =>
      let ev₁ := ev₀ ++ [.stderr ("Use the sha from resource: ".toList ++ repoStr),
        .run (logCmd ctx repoStr)]
      match r.log.Err with
      | some err => (.returned (.error err), ev₁ ++ [.stderr r.log.Output])
      | none =>
        match ctx.Unquote (TrimSpace r.log.Output) with
        | .error err => (.returned (.error err), ev₁ ++ [.stderr r.log.Output])
        | .ok headRef => (.returned (.ok headRef), ev₁)
    | _ => (.panicked, ev₀)
  | none =>
    let ev₁ : List Event :=
      [.stderr ("Use the last hash at ".toList ++ remoteRef driver),
        .run (lsRemoteCmd gitRepoDir driver)]
    match r.lsRemote.Err with
    | some err => (.returned (.error err), ev₁ ++ [.stderr r.lsRemote.Output])
    | none => (.returned (.ok (firstTabField r.lsRemote.Output)), ev₁)

/-- The command `git tag --force --annotate --message <msg> <version> <headRef>`. -/
def tagCmd (ctx : WriteContext) (gitRepoDir version headRef : GoString) : Cmd :=
  ⟨gitRepoDir, ["git".toList, "tag".toList, "--force".toList, "--annotate".toList,
    "--message".toList, tagMessage ctx, version, headRef]⟩

/-- The command `git push origin <version>`. -/
def pushTagCmd (gitRepoDir version : GoString) : Cmd :=
  ⟨gitRepoDir, ["git".toList, "push".toList, "origin".toList, version]⟩

/-- The final push and the classification of its outcome, git_tag.go lines
180-198. -/
def pushTag (ctx : WriteContext) (gitRepoDir version : GoString) (r : WriteResults) :
    (Bool × Option GoError) × List Event :=
  if Contains r.pushTag.Output ctx.pushRejectedString then
    ((false, none), [.run (pushTagCmd gitRepoDir version)])
  else if Contains r.pushTag.Output ctx.pushRemoteRejectedString then
    ((false, none), [.run (pushTagCmd gitRepoDir version)])
  else
    match r.pushTag.Err with
    | some err =>
      ((false, some err), [.run (pushTagCmd gitRepoDir version), .stderr r.pushTag.Output])
    | none => ((true, none), [.run (pushTagCmd gitRepoDir version)])

/-- Local tagging, remote reconciliation and push, git_tag.go lines 150-198,
once `headRef` is known. -/
def tagAndPush (ctx : WriteContext) (gitRepoDir : GoString) (driver : GitTagDriver)
    (newVersion : Version) (headRef : GoString) (r : WriteResults) :
    (Bool × Option GoError) × List Event :=
  let version := driver.Prefix ++ newVersion.String
  let gitTag := tagCmd ctx gitRepoDir version headRef
  match r.tag.Err with
  | some err => ((false, some err), [.run gitTag, .stderr r.tag.Output])
  | none =>
    let gitShowTag : Cmd :=
      ⟨gitRepoDir, ["git".toList, "ls-remote".toList, "origin".toList,
        "refs/tags/".toList ++ version]⟩
    match r.showTag.Err with
    | some err =>
      ((false, some err), [.run gitTag, .run gitShowTag, .stderr r.showTag.Output])
    | none =>
      if Contains r.showTag.Output version then
        let gitDeleteTag : Cmd :=
          ⟨gitRepoDir, ["git".toList, "push".toList, "origin".toList,
            ":refs/tags/".toList ++ version]⟩
        match r.deleteTag.Err with
        | some err =>
          ((false, some err),
            [.run gitTag, .run gitShowTag, .run gitDeleteTag, .stderr r.deleteTag.Output])
        | none =>
          let p := pushTag ctx gitRepoDir version r
          (p.1, [.run gitTag, .run gitShowTag, .run gitDeleteTag] ++ p.2)
      else
        let p := pushTag ctx gitRepoDir version r
        (p.1, [.run gitTag, .run gitShowTag] ++ p.2)

/-- `GitTagDriver.writeVersion`, git_tag.go lines 92-199, as a function of
the global `gitRepoDir`, the driver, its arguments and the results of its
git commands. -/
def writeVersion (ctx : WriteContext) (gitRepoDir : GoString) (driver : GitTagDriver)
    (newVersion : Version) (params : Params) (r : WriteResults) : WriteOutcome :=
  let gitFetch : Cmd :=
    ⟨gitRepoDir, ["git".toList, "fetch".toList, "--tags".toList, "--dry-run".toList,
      "--depth=1".toList]⟩
  match r.fetch.Err with
  | some err => ⟨.returned (false, some err), [.run gitFetch, .stderr r.fetch.Output]⟩
  | none =>
    match resolveHeadRef ctx gitRepoDir driver params r with
    | (.panicked, ev) => ⟨.panicked, .run gitFetch :: ev⟩
    | (.returned (.error err), ev) => ⟨.returned (false, some err), .run gitFetch :: ev⟩
    | (.returned (.ok headRef), ev) =>
      let p := tagAndPush ctx gitRepoDir driver newVersion headRef r
      ⟨.returned p.1, .run gitFetch :: ev ++ p.2⟩

/-- The results of the file-system checks and git commands of `setUpRepo`. -/
structure SetUpResults where
  /-- Error of `os.Stat(driver.Repository)`. -/
  statRepository : Option GoError
  /-- Error of `os.Stat(gitRepoDir)`. -/
  statRepoDir : Option GoError
  /-- Error of `git init <gitRepoDir>`. -/
  init : Option GoError
  /-- Error of `git remote add origin <URI>`. -/
  remoteAdd : Option GoError

/-- Return value of `setUpRepo`, the driver and the global `gitRepoDir` as it
leaves them, and the actions performed. -/
structure SetUpOutcome where
  err : Option GoError
  driver : GitTagDriver
  gitRepoDir : GoString
  events : List Event
  deriving DecidableEq

/-- The end of `setUpRepo`, git_tag.go lines 232-236: default the tag
prefix and return `nil`. -/
def defaultPrefix (driver : GitTagDriver) : GitTagDriver :=
  if driver.Prefix = [] then { driver with Prefix := "v".toList } else driver

/-- `GitTagDriver.setUpRepo`, git_tag.go lines 201-237, as a function of the
global `gitRepoDir`, the driver and the results of its checks and commands. -/
def setUpRepo (gitRepoDir : GoString) (driver : GitTagDriver) (r : SetUpResults) : SetUpOutcome :=
  if driver.Repository ≠ [] then
    match r.statRepository with
    | none => ⟨none, driver, gitRepoDir, [.stat driver.Repository]⟩
    | some _ => ⟨none, defaultPrefix driver, driver.Repository, [.stat driver.Repository]⟩
  else if driver.URI ≠ [] then
    match r.statRepoDir with
    | some _ =>
      let gitInit : Cmd := ⟨[], ["git".toList, "init".toList, gitRepoDir]⟩
      match r.init with
      | some err => ⟨some err, driver, gitRepoDir, [.stat gitRepoDir, .run gitInit]⟩
      | none =>
        let gitRemote : Cmd :=
          ⟨gitRepoDir, ["git".toList, "remote".toList, "add".toList, "origin".toList, driver.URI]⟩
        match r.remoteAdd with
        | some err =>
          ⟨some err, driver, gitRepoDir, [.stat gitRepoDir, .run gitInit, .run gitRemote]⟩
        | none =>
          ⟨none, defaultPrefix driver, gitRepoDir,
            [.stat gitRepoDir, .run gitInit, .run gitRemote]⟩
    | none => ⟨none, defaultPrefix driver, gitRepoDir, [.stat gitRepoDir]⟩
  else ⟨some .notConfigured, driver, gitRepoDir, []⟩

/-! ## Vocabulary of the specification -/

/-- The non-blank lines of a tag text, each trimmed of white space. -/
def tagLines (text : GoString) : List GoString :=
  ((Split '\n' text).map TrimSpace).filter (fun line => line.length ≠ 0)

/-- The version a trimmed line stands for: the line starts with the tag
prefix and its remainder parses. -/
def parseLine (tagPrefix line : GoString) : Option Version :=
  if HasPrefix line tagPrefix then
    match Parse (line.drop tagPrefix.length) with
    | .ok v => some v
    | .error _ => none
  else none

/-- A well-formed tag text: every non-blank trimmed line starts with the tag
prefix and has a remainder that parses as a semantic version. -/
def WellFormed (tagPrefix text : GoString) : Prop :=
  ∀ line ∈ tagLines text, (parseLine tagPrefix line).isSome = true

instance (tagPrefix text : GoString) : Decidable (WellFormed tagPrefix text) :=
  inferInstanceAs (Decidable (∀ line ∈ tagLines text, (parseLine tagPrefix line).isSome = true))

/-- The versions parsed from the lines of a tag text, in line order. -/
def parsedVersions (tagPrefix text : GoString) : List Version :=
  (tagLines text).filterMap (parseLine tagPrefix)

/-- One step of the maximum reduction in `currentVersion`, git_tag.go lines
46-48. -/
def maxStep (max current : Version) : Version :=
  if current.Compare max > 0 then current else max


/-! ## Comparison laws and auxiliary notions -/

/-- A three-way comparison in the style of Go `Compare` methods: values `-1`,
`0`, `1`, antisymmetric, with `0` a congruence and `-1` transitive. -/
structure LawfulCompare {α : Type} (c : α → α → Int) : Prop where
  range : ∀ a b, c a b = -1 ∨ c a b = 0 ∨ c a b = 1
  anti : ∀ a b, c b a = - c a b
  eq_congr : ∀ a b d, c a b = 0 → c a d = c b d
  lt_trans : ∀ a b d, c a b = -1 → c b d = -1 → c a d = -1

/-- The numeric branch of `PRVersion.Compare`. -/
def numCompare (a b : Nat) : Int :=
  if a = b then 0 else if a > b then 1 else -1

/-- The alphanumeric branch of `PRVersion.Compare`. -/
def strCompare (a b : GoString) : Int :=
  if a = b then 0 else if stringLt b a then 1 else -1

/-- The prerelease part of `Version.Compare`: the quick comparison on empty
prerelease lists followed by the loop. -/
def preCompare (v o : List PRVersion) : Int :=
  if v.length = 0 ∧ o.length = 0 then 0
  else if v.length = 0 ∧ o.length > 0 then 1
  else if v.length > 0 ∧ o.length = 0 then -1
  else comparePre v o

/-- The comparison key of a version; build metadata is not part of it. -/
def Version.key (v : Version) : Nat × Nat × Nat × List PRVersion :=
  (v.Major, v.Minor, v.Patch, v.Pre)

/-- A prerelease identifier in the shape `NewPRVersion` produces: the unused
one of the fields `VersionStr` / `VersionNum` holds its zero value. -/
def PRVersion.Canonical (v : PRVersion) : Prop :=
  (v.IsNum = true → v.VersionStr = []) ∧ (v.IsNum = false → v.VersionNum = 0)

/-! ## Concrete inputs -/

/-- The test input of `TestGitDriver_CurrentVersion`. -/
def sampleTags : GoString :=
  "v2.10.0\nv2.9.4\nv2.9.3\nv2.10.2\nv2.10.1\nv2.9.2\nv2.9.1\nv2.9.0\nv2.8.2\nv2.8.1\n".toList

/-- A tag list whose only tag is a prerelease of `0.0.0`. -/
def prereleaseOnlyTags : GoString := "v0.0.0-alpha\n".toList

/-- Two tags of equal precedence that differ in build metadata. -/
def buildTagsAB : GoString := "v1.0.0+a\nv1.0.0+b\n".toList

/-- The tags of `buildTagsAB` in the opposite order. -/
def buildTagsBA : GoString := "v1.0.0+b\nv1.0.0+a\n".toList

/-- A tag list with blank lines, surrounding white space, a prerelease and
build metadata. -/
def mixedTags : GoString := "v1.2.3\n\n  v1.10.0-rc.1+build.5 \r\n\tv0.9.0\n".toList

/-- The lines of `mixedTags` in another order. -/
def mixedTagsShuffled : GoString := "v0.9.0\nv1.10.0-rc.1+build.5\nv1.2.3\n".toList

/-- A tag list with a line that does not carry the prefix `v`. -/
def foreignTags : GoString := "v1.0.0\nrelease-2.0.0\nv3.0.0\n".toList

/-- A context for concrete runs of `writeVersion`: an empty environment,
plain concatenation for `path.Join`, removal of surrounding double quotes for
`strconv.Unquote`, and the markers `[rejected]` and `[remote rejected]`. -/
def sampleContext : WriteContext where
  Getenv := fun _ => []
  pathJoin := fun dir name => dir ++ '/' :: name
  Unquote := fun s =>
    match s with
    | '"' :: rest =>
      match rest.reverse with
      | '"' :: inner => .ok inner.reverse
      | _ => .error (.external "invalid syntax".toList)
    | _ => .error (.external "invalid syntax".toList)
  pushRejectedString := "[rejected]".toList
  pushRemoteRejectedString := "[remote rejected]".toList

/-- A driver bound to a remote, with prefix `v` and no branch filter. -/
def sampleDriver : GitTagDriver := ⟨"v".toList, "git@example.com:org/repo.git".toList, [], []⟩

/-- A command that succeeded without output. -/
def quietSuccess : CmdResult := ⟨[], none⟩

/-- Command results of a run of `writeVersion` in which every command
succeeds, `ls-remote` reports one commit for `HEAD` and the tag is new. -/
def sampleWriteResults : WriteResults where
  fetch := quietSuccess
  log := ⟨"\"0123abc\"".toList, none⟩
  lsRemote := ⟨"89abcdef\tHEAD\n".toList, none⟩
  tag := quietSuccess
  showTag := quietSuccess
  deleteTag := quietSuccess
  pushTag := ⟨"To example.com:org/repo.git\n * [new tag] v1.2.3 -> v1.2.3\n".toList, none⟩

/-- The results of `sampleWriteResults` with a push that lost the race. -/
def rejectedWriteResults : WriteResults :=
  { sampleWriteResults with
    pushTag := ⟨" ! [rejected] v1.2.3 -> v1.2.3 (already exists)\n".toList,
      some (.external "exit status 1".toList)⟩ }

/-- A driver with both a local path and a remote URI configured. -/
def bothSetDriver : GitTagDriver :=
  ⟨[], "git@example.com:org/repo.git".toList, "/work/repo".toList, []⟩

/-- A driver with a local path only and no tag prefix. -/
def localPathDriver : GitTagDriver := ⟨[], [], "/work/repo".toList, []⟩

/-- A driver with neither a local path nor a remote URI. -/
def unboundDriver : GitTagDriver := ⟨"v".toList, [], [], "main".toList⟩

/-- Results of `setUpRepo` on a machine where every checked path exists and
every command would succeed. -/
def pathsExist : SetUpResults := ⟨none, none, none, none⟩

/-- Results of `setUpRepo` on a machine where no checked path exists and
every command would succeed. -/
def pathsAbsent : SetUpResults :=
  ⟨some (.external "no such file or directory".toList),
    some (.external "no such file or directory".toList), none, none⟩

/-! ## Lemmas -/

theorem stringLt_irrefl (s : GoString) : stringLt s s = false := by
  induction s with
  | nil => rfl
  | cons a as ih => simp [stringLt, ih]

theorem stringLt_trans : ∀ (a b c : GoString), stringLt a b = true → stringLt b c = true →
    stringLt a c = true
  | [], [], _, h, _ => by simp [stringLt] at h
  | [], _ :: _, [], _, h => by simp [stringLt] at h
  | [], _ :: _, _ :: _, _, _ => by simp [stringLt]
  | _ :: _, [], _, h, _ => by simp [stringLt] at h
  | _ :: _, _ :: _, [], _, h => by simp [stringLt] at h
  | a :: as, b :: bs, c :: cs, h1, h2 => by
    simp only [stringLt, Bool.or_eq_true, Bool.and_eq_true, decide_eq_true_eq] at h1 h2 ⊢
    rcases h1 with h1 | ⟨rfl, h1⟩
    · rcases h2 with h2 | ⟨rfl, _⟩
      · exact Or.inl (lt_trans h1 h2)
      · exact Or.inl h1
    · rcases h2 with h2 | ⟨rfl, h2⟩
      · exact Or.inl h2
      · exact Or.inr ⟨rfl, stringLt_trans as bs cs h1 h2⟩

theorem stringLt_total : ∀ (a b : GoString), a ≠ b → stringLt a b = true ∨ stringLt b a = true
  | [], [], h => absurd rfl h
  | [], _ :: _, _ => by simp [stringLt]
  | _ :: _, [], _ => by simp [stringLt]
  | a :: as, b :: bs, h => by
    simp only [stringLt, Bool.or_eq_true, Bool.and_eq_true, decide_eq_true_eq]
    rcases lt_trichotomy a b with hab | rfl | hab
    · exact Or.inl (Or.inl hab)
    · have h' : as ≠ bs := fun e => h (by rw [e])
      rcases stringLt_total as bs h' with h1 | h1
      · exact Or.inl (Or.inr ⟨rfl, h1⟩)
      · exact Or.inr (Or.inr ⟨rfl, h1⟩)
    · exact Or.inr (Or.inl hab)

theorem stringLt_asymm (a b : GoString) (h : stringLt a b = true) : stringLt b a = false := by
  cases hba : stringLt b a with
  | false => rfl
  | true =>
    have := stringLt_trans a b a h hba
    rw [stringLt_irrefl] at this
    exact absurd this (by simp)


theorem stringLt_antisymm_false (a b : GoString) (h1 : stringLt a b = true)
    (h2 : stringLt b a = true) : False := by
  rw [stringLt_asymm a b h1] at h2
  exact Bool.noConfusion h2

theorem numCompare_lawful : LawfulCompare numCompare where
  range a b := by unfold numCompare; split_ifs <;> simp
  anti a b := by unfold numCompare; split_ifs <;> omega
  eq_congr a b d h := by
    have : a = b := by
      unfold numCompare at h; split_ifs at h <;> first | assumption | omega
    rw [this]
  lt_trans a b d h1 h2 := by
    unfold numCompare at *; split_ifs at * <;> omega

theorem strCompare_eq_zero {a b : GoString} (h : strCompare a b = 0) : a = b := by
  unfold strCompare at h
  split_ifs at h <;> first | assumption | omega

theorem strCompare_eq_neg_one {a b : GoString} :
    strCompare a b = -1 ↔ stringLt a b = true := by
  unfold strCompare
  constructor
  · intro h
    split_ifs at h with h1 h2
    rcases stringLt_total a b h1 with h3 | h3
    · exact h3
    · exact absurd h3 h2
  · intro h
    split_ifs with h1 h2
    · rw [h1, stringLt_irrefl] at h; exact Bool.noConfusion h
    · exact (stringLt_antisymm_false _ _ h h2).elim
    · rfl

theorem strCompare_eq_one {a b : GoString} :
    strCompare a b = 1 ↔ stringLt b a = true := by
  unfold strCompare
  constructor
  · intro h
    split_ifs at h <;> first | assumption | omega
  · intro h
    split_ifs with h1
    · rw [h1, stringLt_irrefl] at h; exact Bool.noConfusion h
    · rfl

theorem strCompare_lawful : LawfulCompare strCompare where
  range a b := by unfold strCompare; split_ifs <;> simp
  anti a b := by
    by_cases h : a = b
    · subst h; simp [strCompare]
    · rcases stringLt_total a b h with h1 | h1
      · rw [strCompare_eq_neg_one.mpr h1, strCompare_eq_one.mpr h1]; rfl
      · rw [strCompare_eq_neg_one.mpr h1, strCompare_eq_one.mpr h1]
  eq_congr a b d h := by rw [strCompare_eq_zero h]
  lt_trans a b d h1 h2 := by
    rw [strCompare_eq_neg_one] at *
    exact stringLt_trans _ _ _ h1 h2

theorem PRVersion_Compare_eq (v o : PRVersion) :
    v.Compare o =
      match v.IsNum, o.IsNum with
      | true, false => -1
      | false, true => 1
      | true, true => numCompare v.VersionNum o.VersionNum
      | false, false => strCompare v.VersionStr o.VersionStr := by
  unfold PRVersion.Compare numCompare strCompare
  cases v.IsNum <;> cases o.IsNum <;> simp

theorem PRVersion_Compare_lawful : LawfulCompare PRVersion.Compare where
  range v o := by
    rw [PRVersion_Compare_eq]
    cases v.IsNum <;> cases o.IsNum <;> simp
    · exact strCompare_lawful.range _ _
    · exact numCompare_lawful.range _ _
  anti v o := by
    rw [PRVersion_Compare_eq, PRVersion_Compare_eq]
    cases v.IsNum <;> cases o.IsNum <;> simp
    · exact strCompare_lawful.anti _ _
    · exact numCompare_lawful.anti _ _
  eq_congr a b d h := by
    rw [PRVersion_Compare_eq] at h
    rw [PRVersion_Compare_eq, PRVersion_Compare_eq]
    cases ha : a.IsNum <;> cases hb : b.IsNum <;> cases hd : d.IsNum <;>
      simp only [ha, hb] at h <;> simp <;>
      first
        | exact absurd h (by decide)
        | exact strCompare_lawful.eq_congr _ _ _ h
        | exact numCompare_lawful.eq_congr _ _ _ h
  lt_trans a b d h1 h2 := by
    rw [PRVersion_Compare_eq] at h1 h2
    rw [PRVersion_Compare_eq]
    cases ha : a.IsNum <;> cases hb : b.IsNum <;> cases hd : d.IsNum <;>
      simp only [ha, hb, hd] at h1 h2 <;> simp <;>
      first
        | exact absurd h1 (by decide)
        | exact absurd h2 (by decide)
        | exact strCompare_lawful.lt_trans _ _ _ h1 h2
        | exact numCompare_lawful.lt_trans _ _ _ h1 h2


namespace LawfulCompare

variable {α β : Type} {c : α → α → Int} {c' : β → β → Int}

theorem refl (h : LawfulCompare c) (a : α) : c a a = 0 := by
  have := h.anti a a
  omega

theorem eq_congr_right (h : LawfulCompare c) (a b d : α) (hbd : c b d = 0) :
    c a b = c a d := by
  have h1 := h.anti a b
  have h2 := h.anti a d
  have h3 := h.eq_congr b d a hbd
  omega

theorem ne_zero_cases (h : LawfulCompare c) (a b : α) (hab : c a b ≠ 0) :
    c a b = -1 ∨ c a b = 1 := by
  rcases h.range a b with h1 | h1 | h1
  · exact Or.inl h1
  · exact absurd h1 hab
  · exact Or.inr h1

/-- Lexicographic combination of two lawful comparisons on a pair. -/
theorem lex (h : LawfulCompare c) (h' : LawfulCompare c') :
    LawfulCompare (fun (p q : α × β) => if c p.1 q.1 = 0 then c' p.2 q.2 else c p.1 q.1) where
  range p q := by
    show (if c p.1 q.1 = 0 then c' p.2 q.2 else c p.1 q.1) = -1 ∨ _
    split_ifs
    · exact h'.range _ _
    · exact h.range _ _
  anti p q := by
    show (if c q.1 p.1 = 0 then c' q.2 p.2 else c q.1 p.1)
      = - (if c p.1 q.1 = 0 then c' p.2 q.2 else c p.1 q.1)
    have h1 := h.anti p.1 q.1
    have h2 := h'.anti p.2 q.2
    split_ifs <;> omega
  eq_congr p q r hpq := by
    show (if c p.1 r.1 = 0 then c' p.2 r.2 else c p.1 r.1)
      = (if c q.1 r.1 = 0 then c' q.2 r.2 else c q.1 r.1)
    have hpq' : (if c p.1 q.1 = 0 then c' p.2 q.2 else c p.1 q.1) = 0 := hpq
    split_ifs at hpq' with h0
    · rw [h.eq_congr _ _ r.1 h0, h'.eq_congr _ _ r.2 hpq']
    · exact absurd hpq' h0
  lt_trans p q r hpq hqr := by
    show (if c p.1 r.1 = 0 then c' p.2 r.2 else c p.1 r.1) = -1
    have hpq' : (if c p.1 q.1 = 0 then c' p.2 q.2 else c p.1 q.1) = -1 := hpq
    have hqr' : (if c q.1 r.1 = 0 then c' q.2 r.2 else c q.1 r.1) = -1 := hqr
    split_ifs at hpq' with h0 <;> split_ifs at hqr' with h1
    · have e : c p.1 r.1 = 0 := by rw [h.eq_congr _ _ _ h0]; exact h1
      rw [if_pos e]
      exact h'.lt_trans _ _ _ hpq' hqr'
    · have e : c p.1 r.1 = -1 := by rw [h.eq_congr _ _ _ h0]; exact hqr'
      rw [e]; rfl
    · have e : c p.1 r.1 = -1 := by rw [← h.eq_congr_right _ _ _ h1]; exact hpq'
      rw [e]; rfl
    · have e : c p.1 r.1 = -1 := h.lt_trans _ _ _ hpq' hqr'
      rw [e]; rfl

/-- A lawful comparison stays lawful when computed on a key. -/
theorem comap (h : LawfulCompare c) (f : β → α) : LawfulCompare (fun x y => c (f x) (f y)) where
  range _ _ := h.range _ _
  anti _ _ := h.anti _ _
  eq_congr _ _ _ := h.eq_congr _ _ _
  lt_trans _ _ _ := h.lt_trans _ _ _

/-- Derived: `≤` is transitive. -/
theorem le_trans (h : LawfulCompare c) (a b d : α) (h1 : c a b ≤ 0) (h2 : c b d ≤ 0) :
    c a d ≤ 0 := by
  rcases h.range a b with e1 | e1 | e1
  · rcases h.range b d with e2 | e2 | e2
    · rw [h.lt_trans a b d e1 e2]; decide
    · rw [← h.eq_congr_right a b d e2, e1]; decide
    · omega
  · rw [h.eq_congr a b d e1]; exact h2
  · omega

theorem eq_zero_of_le_of_le (h : LawfulCompare c) (a b : α) (h1 : c a b ≤ 0) (h2 : c b a ≤ 0) :
    c a b = 0 := by
  have := h.anti a b
  omega

end LawfulCompare

theorem comparePre_cons (a b : PRVersion) (as bs : List PRVersion) :
    comparePre (a :: as) (b :: bs) = if a.Compare b = 0 then comparePre as bs else a.Compare b := by
  simp only [comparePre]
  split_ifs with h0 h1
  · rfl
  · exact h1.symm
  · rcases PRVersion_Compare_lawful.range a b with h | h | h
    · exact h.symm
    · exact absurd h h0
    · exact absurd h h1

theorem comparePre_lawful : LawfulCompare comparePre where
  range a b := by
    induction a generalizing b with
    | nil => cases b <;> simp [comparePre]
    | cons x xs ih =>
      cases b with
      | nil => simp [comparePre]
      | cons y ys =>
        rw [comparePre_cons]
        split_ifs
        · exact ih ys
        · exact PRVersion_Compare_lawful.range x y
  anti a b := by
    induction a generalizing b with
    | nil => cases b <;> simp [comparePre]
    | cons x xs ih =>
      cases b with
      | nil => simp [comparePre]
      | cons y ys =>
        rw [comparePre_cons, comparePre_cons]
        have h1 := PRVersion_Compare_lawful.anti x y
        have h2 := ih ys
        split_ifs <;> omega
  eq_congr a b d h := by
    induction a generalizing b d with
    | nil =>
      cases b with
      | nil => rfl
      | cons y ys => simp [comparePre] at h
    | cons x xs ih =>
      cases b with
      | nil => simp [comparePre] at h
      | cons y ys =>
        rw [comparePre_cons] at h
        split_ifs at h with h0
        · cases d with
          | nil => simp [comparePre]
          | cons z zs =>
            rw [comparePre_cons, comparePre_cons,
              PRVersion_Compare_lawful.eq_congr x y z h0, ih ys zs h]
        · exact absurd h h0
  lt_trans a b d h1 h2 := by
    induction a generalizing b d with
    | nil =>
      cases b with
      | nil => simp [comparePre] at h1
      | cons y ys =>
        cases d with
        | nil => simp [comparePre] at h2
        | cons z zs => simp [comparePre]
    | cons x xs ih =>
      cases b with
      | nil => simp [comparePre] at h1
      | cons y ys =>
        cases d with
        | nil => simp [comparePre] at h2
        | cons z zs =>
          rw [comparePre_cons] at h1 h2 ⊢
          have L := PRVersion_Compare_lawful
          split_ifs at h1 with e1 <;> split_ifs at h2 with e2
          · have e : x.Compare z = 0 := by rw [L.eq_congr _ _ _ e1]; exact e2
            rw [if_pos e]
            exact ih ys zs h1 h2
          · have e : x.Compare z = -1 := by rw [L.eq_congr _ _ _ e1]; exact h2
            rw [e]; rfl
          · have e : x.Compare z = -1 := by rw [← L.eq_congr_right _ _ _ e2]; exact h1
            rw [e]; rfl
          · have e : x.Compare z = -1 := L.lt_trans _ _ _ h1 h2
            rw [e]; rfl

theorem preCompare_lawful : LawfulCompare preCompare where
  range a b := by
    cases a <;> cases b <;> simp [preCompare]
    exact comparePre_lawful.range _ _
  anti a b := by
    cases a <;> cases b <;> simp [preCompare]
    exact comparePre_lawful.anti _ _
  eq_congr a b d h := by
    cases a <;> cases b <;> cases d <;> simp [preCompare] at h ⊢
    exact comparePre_lawful.eq_congr _ _ _ h
  lt_trans a b d h1 h2 := by
    cases a <;> cases b <;> cases d <;> simp [preCompare] at h1 h2 ⊢
    exact comparePre_lawful.lt_trans _ _ _ h1 h2

theorem numCompare_eq_zero_iff (a b : Nat) : numCompare a b = 0 ↔ a = b := by
  unfold numCompare
  by_cases h : a = b
  · simp [h]
  · by_cases h' : a > b <;> simp [h, h']

theorem numCompare_of_ne (a b : Nat) (h : a ≠ b) :
    numCompare a b = if a > b then 1 else -1 := by
  unfold numCompare
  rw [if_neg h]

theorem Version_Compare_eq (v o : Version) :
    v.Compare o =
      if numCompare v.Major o.Major = 0 then
        if numCompare v.Minor o.Minor = 0 then
          if numCompare v.Patch o.Patch = 0 then preCompare v.Pre o.Pre
          else numCompare v.Patch o.Patch
        else numCompare v.Minor o.Minor
      else numCompare v.Major o.Major := by
  unfold Version.Compare
  by_cases h1 : v.Major = o.Major
  · rw [if_neg (not_not.mpr h1), if_pos ((numCompare_eq_zero_iff _ _).mpr h1)]
    by_cases h2 : v.Minor = o.Minor
    · rw [if_neg (not_not.mpr h2), if_pos ((numCompare_eq_zero_iff _ _).mpr h2)]
      by_cases h3 : v.Patch = o.Patch
      · rw [if_neg (not_not.mpr h3), if_pos ((numCompare_eq_zero_iff _ _).mpr h3)]
        rfl
      · rw [if_pos h3, if_neg (mt (numCompare_eq_zero_iff _ _).mp h3), numCompare_of_ne _ _ h3]
    · rw [if_pos h2, if_neg (mt (numCompare_eq_zero_iff _ _).mp h2), numCompare_of_ne _ _ h2]
  · rw [if_pos h1, if_neg (mt (numCompare_eq_zero_iff _ _).mp h1), numCompare_of_ne _ _ h1]

theorem Version_Compare_lawful : LawfulCompare Version.Compare := by
  have L := (numCompare_lawful.lex (numCompare_lawful.lex
    (numCompare_lawful.lex preCompare_lawful))).comap Version.key
  have e : Version.Compare = fun x y =>
      (fun (p q : Nat × Nat × Nat × List PRVersion) =>
        if numCompare p.1 q.1 = 0 then
          (fun (p q : Nat × Nat × List PRVersion) =>
            if numCompare p.1 q.1 = 0 then
              (fun (p q : Nat × List PRVersion) =>
                if numCompare p.1 q.1 = 0 then preCompare p.2 q.2 else numCompare p.1 q.1)
                p.2 q.2
            else numCompare p.1 q.1) p.2 q.2
        else numCompare p.1 q.1) (Version.key x) (Version.key y) := by
    funext x y
    rw [Version_Compare_eq]
    rfl
  rw [e]
  exact L


theorem foldl_maxStep_mem (vs : List Version) (m : Version) :
    vs.foldl maxStep m = m ∨ vs.foldl maxStep m ∈ vs := by
  induction vs generalizing m with
  | nil => exact Or.inl rfl
  | cons v vs ih =>
    rw [List.foldl_cons]
    rcases ih (maxStep m v) with h | h
    · rw [h]
      unfold maxStep
      split_ifs
      · exact Or.inr (List.mem_cons_self _ _)
      · exact Or.inl rfl
    · exact Or.inr (List.mem_cons_of_mem _ h)

theorem currentVersionLoop_wellFormed (p : GoString) (ls : List GoString) (max : Version)
    (h : ∀ line ∈ (ls.map TrimSpace).filter (fun line => line.length ≠ 0),
      (parseLine p line).isSome = true) :
    currentVersionLoop p ls max =
      ((((ls.map TrimSpace).filter (fun line => line.length ≠ 0)).filterMap
        (parseLine p)).foldl maxStep max, none) := by
  induction ls generalizing max with
  | nil => rfl
  | cons tag tags ih =>
    by_cases hb : (TrimSpace tag).length = 0
    · have e : currentVersionLoop p (tag :: tags) max = currentVersionLoop p tags max := by
        simp only [currentVersionLoop, hb, if_true]
      rw [e, List.map_cons, List.filter_cons_of_neg (by simpa using hb)]
      apply ih
      intro line hl
      apply h
      rw [List.map_cons, List.filter_cons_of_neg (by simpa using hb)]
      exact hl
    · have hmem : TrimSpace tag ∈ ((tag :: tags).map TrimSpace).filter
          (fun line => line.length ≠ 0) := by
        rw [List.map_cons, List.filter_cons_of_pos (by simpa using hb)]
        exact List.mem_cons_self _ _
      have hp := h _ hmem
      have htl : ∀ line ∈ (tags.map TrimSpace).filter (fun line => line.length ≠ 0),
          (parseLine p line).isSome = true := by
        intro line hl
        apply h
        rw [List.map_cons, List.filter_cons_of_pos (by simpa using hb)]
        exact List.mem_cons_of_mem _ hl
      rw [List.map_cons, List.filter_cons_of_pos (by simpa using hb)]
      unfold parseLine at hp
      by_cases hpre : HasPrefix (TrimSpace tag) p = true
      · rw [if_pos hpre] at hp
        cases hparse : Parse (List.drop p.length (TrimSpace tag)) with
        | error e => rw [hparse] at hp; exact absurd hp (by simp)
        | ok current =>
          have hpl : parseLine p (TrimSpace tag) = some current := by
            unfold parseLine; rw [if_pos hpre, hparse]
          rw [List.filterMap_cons_some hpl, List.foldl_cons]
          have e : currentVersionLoop p (tag :: tags) max =
              currentVersionLoop p tags (maxStep max current) := by
            simp only [currentVersionLoop, hb, if_false, hpre, Bool.not_true, hparse, maxStep]
            split_ifs <;> first | rfl | contradiction
          rw [e]
          exact ih _ htl
      · rw [if_neg hpre] at hp
        exact absurd hp (by simp)


theorem NewPRVersion_canonical (s : GoString) (v : PRVersion) (h : NewPRVersion s = .ok v) :
    v.Canonical := by
  unfold NewPRVersion at h
  split_ifs at h
  · cases hp : ParseUint s with
    | none => rw [hp] at h; cases h
    | some n =>
      rw [hp] at h
      cases h
      exact ⟨fun _ => rfl, fun h => Bool.noConfusion h⟩
  · cases h
    exact ⟨fun h => Bool.noConfusion h, fun _ => rfl⟩

theorem parsePrerelease_canonical (l : List GoString) (vs : List PRVersion)
    (h : parsePrerelease l = .ok vs) : ∀ v ∈ vs, v.Canonical := by
  induction l generalizing vs with
  | nil =>
    cases h
    intro v hv
    cases hv
  | cons s rest ih =>
    unfold parsePrerelease at h
    cases h1 : NewPRVersion s with
    | error e => rw [h1] at h; cases h
    | ok pr =>
      cases h2 : parsePrerelease rest with
      | error e => rw [h1, h2] at h; cases h
      | ok prs =>
        rw [h1, h2] at h
        cases h
        intro v hv
        rcases List.mem_cons.mp hv with rfl | hv
        · exact NewPRVersion_canonical _ _ h1
        · exact ih prs h2 v hv

theorem Parse_canonical (s : GoString) (v : Version) (h : Parse s = .ok v) :
    ∀ pr ∈ v.Pre, pr.Canonical := by
  unfold Parse at h
  split_ifs at h
  split at h
  · split at h
    · cases h
    · split at h
      · cases h
      · simp only at h
        split at h
        · cases h
        · split at h
          · cases h
          · rename_i pre hpre
            split at h
            · cases h
            · cases h
              exact parsePrerelease_canonical _ _ hpre
  · cases h


theorem PRVersion.eq_of_Compare_eq_zero (a b : PRVersion) (ha : a.Canonical) (hb : b.Canonical)
    (h : a.Compare b = 0) : a = b := by
  rw [PRVersion_Compare_eq] at h
  obtain ⟨sa, na, ia⟩ := a
  obtain ⟨sb, nb, ib⟩ := b
  obtain ⟨ha1, ha2⟩ := ha
  obtain ⟨hb1, hb2⟩ := hb
  cases ia <;> cases ib <;> simp only at h ha1 ha2 hb1 hb2
  · rw [strCompare_eq_zero h, ha2 trivial, hb2 trivial]
  · exact absurd h (by decide)
  · exact absurd h (by decide)
  · rw [(numCompare_eq_zero_iff _ _).mp h, ha1 trivial, hb1 trivial]

theorem comparePre_eq_zero (a b : List PRVersion) (ha : ∀ v ∈ a, v.Canonical)
    (hb : ∀ v ∈ b, v.Canonical) (h : comparePre a b = 0) : a = b := by
  induction a generalizing b with
  | nil =>
    cases b with
    | nil => rfl
    | cons y ys => simp [comparePre] at h
  | cons x xs ih =>
    cases b with
    | nil => simp [comparePre] at h
    | cons y ys =>
      rw [comparePre_cons] at h
      split_ifs at h with h0
      · rw [PRVersion.eq_of_Compare_eq_zero x y (ha x (List.mem_cons_self _ _))
            (hb y (List.mem_cons_self _ _)) h0,
          ih ys (fun v hv => ha v (List.mem_cons_of_mem _ hv))
            (fun v hv => hb v (List.mem_cons_of_mem _ hv)) h]
      · exact absurd h h0

theorem preCompare_eq_zero (a b : List PRVersion) (ha : ∀ v ∈ a, v.Canonical)
    (hb : ∀ v ∈ b, v.Canonical) (h : preCompare a b = 0) : a = b := by
  cases a with
  | nil =>
    cases b with
    | nil => rfl
    | cons y ys => simp [preCompare] at h
  | cons x xs =>
    cases b with
    | nil => simp [preCompare] at h
    | cons y ys =>
      have h' : comparePre (x :: xs) (y :: ys) = 0 := by simpa [preCompare] using h
      exact comparePre_eq_zero _ _ ha hb h'

theorem Version.fields_eq_of_Compare_eq_zero (v o : Version) (hv : ∀ pr ∈ v.Pre, pr.Canonical)
    (ho : ∀ pr ∈ o.Pre, pr.Canonical) (h : v.Compare o = 0) :
    v.Major = o.Major ∧ v.Minor = o.Minor ∧ v.Patch = o.Patch ∧ v.Pre = o.Pre := by
  rw [Version_Compare_eq] at h
  split_ifs at h with h1 h2 h3
  · exact ⟨(numCompare_eq_zero_iff _ _).mp h1, (numCompare_eq_zero_iff _ _).mp h2,
      (numCompare_eq_zero_iff _ _).mp h3, preCompare_eq_zero _ _ hv ho h⟩
  · exact absurd h h3
  · exact absurd h h2
  · exact absurd h h1

theorem foldl_maxStep_ge (vs : List Version) (m : Version) :
    m.Compare (vs.foldl maxStep m) ≤ 0 ∧ ∀ v ∈ vs, v.Compare (vs.foldl maxStep m) ≤ 0 := by
  have L := Version_Compare_lawful
  induction vs generalizing m with
  | nil =>
    refine ⟨?_, fun v hv => by cases hv⟩
    rw [List.foldl_nil, L.refl]
  | cons x xs ih =>
    rw [List.foldl_cons]
    obtain ⟨h1, h2⟩ := ih (maxStep m x)
    have hm : m.Compare (maxStep m x) ≤ 0 := by
      unfold maxStep
      split_ifs with hx
      · have := L.anti x m; omega
      · rw [L.refl]
    have hx : x.Compare (maxStep m x) ≤ 0 := by
      unfold maxStep
      split_ifs with hx
      · rw [L.refl]
      · omega
    refine ⟨L.le_trans _ _ _ hm h1, ?_⟩
    intro v hv
    rcases List.mem_cons.mp hv with rfl | hv
    · exact L.le_trans _ _ _ hx h1
    · exact h2 v hv

theorem foldl_maxStep_eq_init (vs : List Version) (m : Version)
    (h : ∀ v ∈ vs, v.Compare m ≤ 0) : vs.foldl maxStep m = m := by
  induction vs with
  | nil => rfl
  | cons x xs ih =>
    have hx : maxStep m x = m := by
      unfold maxStep
      rw [if_neg (by have := h x (List.mem_cons_self _ _); omega)]
    rw [List.foldl_cons, hx]
    exact ih (fun v hv => h v (List.mem_cons_of_mem _ hv))

theorem currentVersion_of_wellFormed (p text : GoString) (h : WellFormed p text) :
    currentVersion p text = ((parsedVersions p text).foldl maxStep Version.zero, none) :=
  currentVersionLoop_wellFormed p (Split '\n' text) Version.zero h

theorem currentVersionLoop_unexpected (p : GoString) (ls : List GoString) (max : Version)
    (h : ∃ line ∈ ls, (TrimSpace line).length ≠ 0 ∧ HasPrefix (TrimSpace line) p = false) :
    (currentVersionLoop p ls max).1 = Version.zero ∧
      (currentVersionLoop p ls max).2.isSome = true := by
  induction ls generalizing max with
  | nil =>
    obtain ⟨line, hl, _⟩ := h
    cases hl
  | cons tag tags ih =>
    by_cases hb : (TrimSpace tag).length = 0
    · have e : currentVersionLoop p (tag :: tags) max = currentVersionLoop p tags max := by
        simp only [currentVersionLoop, hb, if_true]
      rw [e]
      apply ih
      obtain ⟨line, hl, h1, h2⟩ := h
      rcases List.mem_cons.mp hl with rfl | hl
      · exact absurd hb h1
      · exact ⟨line, hl, h1, h2⟩
    · by_cases hpre : HasPrefix (TrimSpace tag) p = true
      · cases hparse : Parse (List.drop p.length (TrimSpace tag)) with
        | error err =>
          have e : currentVersionLoop p (tag :: tags) max =
              (Version.zero, some (.semver err)) := by
            simp only [currentVersionLoop, hb, if_false, hpre, Bool.not_true, hparse]
            split_ifs <;> first | rfl | contradiction
          rw [e]
          exact ⟨rfl, rfl⟩
        | ok current =>
          have e : currentVersionLoop p (tag :: tags) max =
              currentVersionLoop p tags (maxStep max current) := by
            simp only [currentVersionLoop, hb, if_false, hpre, Bool.not_true, hparse, maxStep]
            split_ifs <;> first | rfl | contradiction
          rw [e]
          apply ih
          obtain ⟨line, hl, h1, h2⟩ := h
          rcases List.mem_cons.mp hl with rfl | hl
          · rw [h2] at hpre; exact Bool.noConfusion hpre
          · exact ⟨line, hl, h1, h2⟩
      · have e : currentVersionLoop p (tag :: tags) max =
            (Version.zero, some (.unexpectedTag tag)) := by
          have hpre' : HasPrefix (TrimSpace tag) p = false := by
            cases hh : HasPrefix (TrimSpace tag) p
            · rfl
            · exact absurd hh hpre
          simp only [currentVersionLoop, hb, if_false, hpre', Bool.not_false, if_true]
        rw [e]
        exact ⟨rfl, rfl⟩

theorem Split_mem_chars (sep : Char) (s : GoString) :
    ∀ piece ∈ Split sep s, ∀ c ∈ piece, c ∈ s := by
  induction s with
  | nil =>
    intro piece hp c hc
    simp only [Split, List.mem_singleton] at hp
    rw [hp] at hc
    exact hc
  | cons a as ih =>
    intro piece hp c hc
    unfold Split at hp
    split_ifs at hp with ha
    · rcases List.mem_cons.mp hp with rfl | hp
      · cases hc
      · exact List.mem_cons_of_mem _ (ih piece hp c hc)
    · cases hs : Split sep as with
      | nil =>
        rw [hs] at hp
        simp only [List.mem_singleton] at hp
        rw [hp] at hc
        simp only [List.mem_singleton] at hc
        rw [hc]
        exact List.mem_cons_self _ _
      | cons q qs =>
        rw [hs] at hp ih
        simp only at hp
        rcases List.mem_cons.mp hp with rfl | hp
        · rcases List.mem_cons.mp hc with rfl | hc
          · exact List.mem_cons_self _ _
          · exact List.mem_cons_of_mem _ (ih q (List.mem_cons_self _ _) c hc)
        · exact List.mem_cons_of_mem _ (ih piece (List.mem_cons_of_mem _ hp) c hc)

theorem TrimSpace_of_all_space (s : GoString) (h : ∀ c ∈ s, isSpace c = true) :
    TrimSpace s = [] := by
  unfold TrimSpace
  rw [List.dropWhile_eq_nil_iff.mpr h]
  rfl

theorem tagLines_of_all_space (text : GoString) (h : ∀ c ∈ text, isSpace c = true) :
    tagLines text = [] := by
  unfold tagLines
  rw [List.filter_eq_nil_iff]
  intro line hl
  obtain ⟨raw, hraw, rfl⟩ := List.mem_map.mp hl
  rw [TrimSpace_of_all_space raw (fun c hc => h c (Split_mem_chars _ _ raw hraw c hc))]
  simp



/-! ## The claims about `currentVersion` -/

/-- C1 (as stated, refuted): for prefix `v` and the single tag `v0.0.0-alpha`
the text is well formed and has a non-blank line, yet `currentVersion`
returns `0.0.0`, which is not one of the parsed versions. -/
theorem currentVersion_result_not_parsed :
    tagLines prereleaseOnlyTags ≠ [] ∧ WellFormed "v".toList prereleaseOnlyTags ∧
    (currentVersion "v".toList prereleaseOnlyTags).2 = none ∧
    (currentVersion "v".toList prereleaseOnlyTags).1 = Version.zero ∧
    (currentVersion "v".toList prereleaseOnlyTags).1 ∉
      parsedVersions "v".toList prereleaseOnlyTags := by
  decide

/-- C1 (amended): on a well-formed tag text with at least one non-blank line
`currentVersion` returns no error and no parsed version is greater than the
result; the result is one of the parsed versions when some parsed version is
greater than `0.0.0`, and is `0.0.0` otherwise. On the test input the result
is `2.10.2`. -/
theorem currentVersion_max (p text : GoString) (hne : tagLines text ≠ [])
    (hwf : WellFormed p text) :
    parsedVersions p text ≠ [] ∧
    (currentVersion p text).2 = none ∧
    (∀ v ∈ parsedVersions p text, ¬ v.Compare (currentVersion p text).1 > 0) ∧
    ((∃ v ∈ parsedVersions p text, v.Compare Version.zero > 0) →
      (currentVersion p text).1 ∈ parsedVersions p text) ∧
    ((∀ v ∈ parsedVersions p text, ¬ v.Compare Version.zero > 0) →
      (currentVersion p text).1 = Version.zero) ∧
    currentVersion "v".toList sampleTags = (⟨2, 10, 2, [], []⟩, none) := by
  rw [currentVersion_of_wellFormed p text hwf]
  refine ⟨?_, rfl, ?_, ?_, ?_, by decide⟩
  · unfold parsedVersions
    intro hnil
    rw [List.filterMap_eq_nil_iff] at hnil
    cases hl : tagLines text with
    | nil => exact hne hl
    | cons line lines =>
      have hmem : line ∈ tagLines text := by rw [hl]; exact List.mem_cons_self _ _
      have h1 := hwf line hmem
      rw [hnil line hmem] at h1
      exact Bool.noConfusion h1
  · intro v hv
    have := (foldl_maxStep_ge (parsedVersions p text) Version.zero).2 v hv
    simp only
    omega
  · rintro ⟨v, hv, hgt⟩
    rcases foldl_maxStep_mem (parsedVersions p text) Version.zero with h | h
    · have := (foldl_maxStep_ge (parsedVersions p text) Version.zero).2 v hv
      rw [h] at this
      omega
    · exact h
  · intro h
    exact foldl_maxStep_eq_init _ _ (fun v hv => by have := h v hv; omega)

/-- Witness of C1 (amended): the test input of `TestGitDriver_CurrentVersion`. -/
theorem currentVersion_max_witness :
    tagLines sampleTags ≠ [] ∧ WellFormed "v".toList sampleTags ∧
    (parsedVersions "v".toList sampleTags ≠ [] ∧
    (currentVersion "v".toList sampleTags).2 = none ∧
    (∀ v ∈ parsedVersions "v".toList sampleTags,
      ¬ v.Compare (currentVersion "v".toList sampleTags).1 > 0) ∧
    ((∃ v ∈ parsedVersions "v".toList sampleTags, v.Compare Version.zero > 0) →
      (currentVersion "v".toList sampleTags).1 ∈ parsedVersions "v".toList sampleTags) ∧
    ((∀ v ∈ parsedVersions "v".toList sampleTags, ¬ v.Compare Version.zero > 0) →
      (currentVersion "v".toList sampleTags).1 = Version.zero) ∧
    currentVersion "v".toList sampleTags = (⟨2, 10, 2, [], []⟩, none)) :=
  ⟨by decide, by decide, currentVersion_max "v".toList sampleTags (by decide) (by decide)⟩

/-- C2 (as stated, refuted): `v1.0.0+a` and `v1.0.0+b` have equal precedence,
so the first one seen is kept: the two orders of the same two lines give
results with different build metadata. -/
theorem currentVersion_order_dependent :
    WellFormed "v".toList buildTagsAB ∧ WellFormed "v".toList buildTagsBA ∧
    (tagLines buildTagsAB).Perm (tagLines buildTagsBA) ∧
    currentVersion "v".toList buildTagsAB = (⟨1, 0, 0, [], [['a']]⟩, none) ∧
    currentVersion "v".toList buildTagsBA = (⟨1, 0, 0, [], [['b']]⟩, none) ∧
    (currentVersion "v".toList buildTagsAB).1 ≠ (currentVersion "v".toList buildTagsBA).1 := by
  refine ⟨by decide, by decide, ?_, by decide, by decide, by decide⟩
  have e1 : tagLines buildTagsAB = ["v1.0.0+a".toList, "v1.0.0+b".toList] := by decide
  have e2 : tagLines buildTagsBA = ["v1.0.0+b".toList, "v1.0.0+a".toList] := by decide
  rw [e1, e2]
  exact List.Perm.swap _ _ _

theorem parsedVersions_canonical (p text : GoString) (v : Version)
    (hv : v ∈ parsedVersions p text) : ∀ pr ∈ v.Pre, pr.Canonical := by
  unfold parsedVersions at hv
  obtain ⟨line, _, hl⟩ := List.mem_filterMap.mp hv
  unfold parseLine at hl
  split_ifs at hl
  cases hparse : Parse (List.drop p.length line) with
  | error e => rw [hparse] at hl; cases hl
  | ok w =>
    rw [hparse] at hl
    cases hl
    exact Parse_canonical _ _ hparse

theorem foldl_maxStep_canonical (p text : GoString) :
    ∀ pr ∈ ((parsedVersions p text).foldl maxStep Version.zero).Pre, pr.Canonical := by
  rcases foldl_maxStep_mem (parsedVersions p text) Version.zero with h | h
  · rw [h]
    intro pr hpr
    cases hpr
  · exact parsedVersions_canonical p text _ h

theorem foldl_maxStep_le_of_perm (vs ws : List Version) (h : vs.Perm ws) :
    (vs.foldl maxStep Version.zero).Compare (ws.foldl maxStep Version.zero) ≤ 0 := by
  rcases foldl_maxStep_mem vs Version.zero with e | e
  · rw [e]
    exact (foldl_maxStep_ge ws Version.zero).1
  · exact (foldl_maxStep_ge ws Version.zero).2 _ (h.subset e)

/-- C2 (amended): on two well-formed tag texts whose non-blank lines are
permutations of one another `currentVersion` returns no error and results of
equal precedence: the same major, minor, patch and prerelease. The build
metadata may differ. -/
theorem currentVersion_perm (p text₁ text₂ : GoString) (h₁ : WellFormed p text₁)
    (h₂ : WellFormed p text₂) (hperm : (tagLines text₁).Perm (tagLines text₂)) :
    (currentVersion p text₁).2 = none ∧ (currentVersion p text₂).2 = none ∧
    (currentVersion p text₁).1.Compare (currentVersion p text₂).1 = 0 ∧
    (currentVersion p text₁).1.Major = (currentVersion p text₂).1.Major ∧
    (currentVersion p text₁).1.Minor = (currentVersion p text₂).1.Minor ∧
    (currentVersion p text₁).1.Patch = (currentVersion p text₂).1.Patch ∧
    (currentVersion p text₁).1.Pre = (currentVersion p text₂).1.Pre := by
  rw [currentVersion_of_wellFormed p text₁ h₁, currentVersion_of_wellFormed p text₂ h₂]
  have hp : (parsedVersions p text₁).Perm (parsedVersions p text₂) :=
    List.Perm.filterMap _ hperm
  have hz := Version_Compare_lawful.eq_zero_of_le_of_le _ _
    (foldl_maxStep_le_of_perm _ _ hp) (foldl_maxStep_le_of_perm _ _ hp.symm)
  exact ⟨rfl, rfl, hz, Version.fields_eq_of_Compare_eq_zero _ _
    (foldl_maxStep_canonical p text₁) (foldl_maxStep_canonical p text₂) hz⟩

/-- Witness of C2 (amended): a tag list and a reordering of its lines. -/
theorem currentVersion_perm_witness :
    WellFormed "v".toList mixedTags ∧ WellFormed "v".toList mixedTagsShuffled ∧
    (tagLines mixedTags).Perm (tagLines mixedTagsShuffled) ∧
    (currentVersion "v".toList mixedTags).1.Compare
      (currentVersion "v".toList mixedTagsShuffled).1 = 0 := by
  have e1 : tagLines mixedTags =
      ["v1.2.3".toList, "v1.10.0-rc.1+build.5".toList, "v0.9.0".toList] := by decide
  have e2 : tagLines mixedTagsShuffled =
      ["v0.9.0".toList, "v1.10.0-rc.1+build.5".toList, "v1.2.3".toList] := by decide
  have hperm : (tagLines mixedTags).Perm (tagLines mixedTagsShuffled) := by
    rw [e1, e2]
    exact (List.Perm.swap _ _ _).trans ((List.Perm.cons _ (List.Perm.swap _ _ _)).trans
      (List.Perm.swap _ _ _))
  exact ⟨by decide, by decide, hperm,
    (currentVersion_perm "v".toList mixedTags mixedTagsShuffled (by decide) (by decide) hperm).2.2.1⟩

/-- C3: a tag text with a non-blank line whose trimmed form does not start
with the prefix makes `currentVersion` return an error together with the
zero version, wherever the line stands and whatever the other lines are. -/
theorem currentVersion_unexpected_tag (p text : GoString)
    (h : ∃ line ∈ Split '\n' text,
      (TrimSpace line).length ≠ 0 ∧ HasPrefix (TrimSpace line) p = false) :
    (currentVersion p text).1 = Version.zero ∧ (currentVersion p text).2 ≠ none := by
  have := currentVersionLoop_unexpected p (Split '\n' text) Version.zero h
  refine ⟨this.1, ?_⟩
  intro hn
  have h2 := this.2
  unfold currentVersion at hn
  rw [hn] at h2
  exact Bool.noConfusion h2

/-- Witness of C3: the second of three lines lacks the prefix `v`. -/
theorem currentVersion_unexpected_tag_witness :
    (∃ line ∈ Split '\n' foreignTags,
      (TrimSpace line).length ≠ 0 ∧ HasPrefix (TrimSpace line) "v".toList = false) ∧
    (currentVersion "v".toList foreignTags).1 = Version.zero ∧
    (currentVersion "v".toList foreignTags).2 ≠ none :=
  ⟨⟨"release-2.0.0".toList, by decide, by decide, by decide⟩,
    currentVersion_unexpected_tag "v".toList foreignTags
      ⟨"release-2.0.0".toList, by decide, by decide, by decide⟩⟩

/-- C4: on every well-formed tag text, blank ones included, `currentVersion`
returns no error and the greatest of `0.0.0` and the parsed versions: the
result is at least `0.0.0`, at least every parsed version, and is `0.0.0` or
one of the parsed versions. On the empty text and on every text `blank` of
white space only it returns `0.0.0` and no error. -/
theorem currentVersion_from_zero (p text blank : GoString) (hwf : WellFormed p text)
    (hblank : ∀ c ∈ blank, isSpace c = true) :
    ((currentVersion p text).2 = none ∧
      (currentVersion p text).1.Compare Version.zero ≥ 0 ∧
      (∀ v ∈ parsedVersions p text, (currentVersion p text).1.Compare v ≥ 0) ∧
      ((currentVersion p text).1 = Version.zero ∨
        (currentVersion p text).1 ∈ parsedVersions p text)) ∧
    currentVersion p [] = (Version.zero, none) ∧
    currentVersion p blank = (Version.zero, none) := by
  have L := Version_Compare_lawful
  refine ⟨?_, rfl, ?_⟩
  · rw [currentVersion_of_wellFormed p text hwf]
    have hge := foldl_maxStep_ge (parsedVersions p text) Version.zero
    refine ⟨rfl, ?_, ?_, foldl_maxStep_mem _ _⟩
    · have := L.anti Version.zero ((parsedVersions p text).foldl maxStep Version.zero)
      have := hge.1
      simp only
      omega
    · intro v hv
      have := L.anti v ((parsedVersions p text).foldl maxStep Version.zero)
      have := hge.2 v hv
      simp only
      omega
  · have hl := tagLines_of_all_space blank hblank
    have hwf' : WellFormed p blank := by
      intro line hline
      rw [hl] at hline
      cases hline
    rw [currentVersion_of_wellFormed p blank hwf']
    unfold parsedVersions
    rw [hl]
    rfl

/-- Witness of C4: a well-formed tag list and a text of white space only. -/
theorem currentVersion_from_zero_witness :
    WellFormed "v".toList mixedTags ∧ (∀ c ∈ " \t\r\n \n".toList, isSpace c = true) ∧
    (currentVersion "v".toList mixedTags).1 =
      ⟨1, 10, 0, [⟨"rc".toList, 0, false⟩, ⟨[], 1, true⟩], ["build".toList, "5".toList]⟩ ∧
    (currentVersion "v".toList mixedTags).1.Compare Version.zero ≥ 0 ∧
    currentVersion "v".toList " \t\r\n \n".toList = (Version.zero, none) :=
  ⟨by decide, by decide, by decide,
    (currentVersion_from_zero "v".toList mixedTags " \t\r\n \n".toList
      (by decide) (by decide)).1.2.1,
    (currentVersion_from_zero "v".toList mixedTags " \t\r\n \n".toList
      (by decide) (by decide)).2.2⟩


/-! ## The claims about `readVersion`, `writeVersion` and `setUpRepo` -/

/-- C5: a failing tag fetch makes `readVersion` return the zero version,
`found = false` and the fetch error, whatever the listing would give and
without running it. With the fetch succeeding and the listing failing, the
result is the zero version with `found = false`, and the error is `nil` if the
listing output contains one of the two markers and the listing error
otherwise. -/
theorem readVersion_listing_failure (g : GoString) (d : GitTagDriver)
    (fetchErr listErr : GoError) (listing other : CmdResult) (out : GoString) :
    (readVersion g d ⟨some fetchErr, listing⟩).result = (Version.zero, false, some fetchErr) ∧
    (readVersion g d ⟨some fetchErr, listing⟩).events =
      [.run ⟨g, ["git".toList, "fetch".toList, "--tags".toList]⟩] ∧
    readVersion g d ⟨some fetchErr, listing⟩ = readVersion g d ⟨some fetchErr, other⟩ ∧
    (readVersion g d ⟨none, ⟨out, some listErr⟩⟩).result =
      (if Contains out "No names found, cannot describe anything".toList = true ∨
          Contains out "Not a valid object name HEAD".toList = true
        then (Version.zero, false, none)
        else (Version.zero, false, some listErr)) := by
  refine ⟨rfl, rfl, rfl, ?_⟩
  simp only [readVersion, nothingToDescribe, notAValidObject, Bool.or_eq_true]
  split_ifs <;> rfl


theorem pushTag_result (ctx : WriteContext) (g version : GoString) (r : WriteResults) :
    (pushTag ctx g version r).1 =
      if Contains r.pushTag.Output ctx.pushRejectedString = true ∨
          Contains r.pushTag.Output ctx.pushRemoteRejectedString = true then (false, none)
      else
        match r.pushTag.Err with
        | some err => (false, some err)
        | none => (true, none) := by
  unfold pushTag
  by_cases h1 : Contains r.pushTag.Output ctx.pushRejectedString = true
  · rw [if_pos h1, if_pos (Or.inl h1)]
  · by_cases h2 : Contains r.pushTag.Output ctx.pushRemoteRejectedString = true
    · rw [if_neg h1, if_pos h2, if_pos (Or.inr h2)]
    · rw [if_neg h1, if_neg h2, if_neg (not_or.mpr ⟨h1, h2⟩)]
      cases r.pushTag.Err <;> rfl

theorem tagAndPush_result (ctx : WriteContext) (g : GoString) (d : GitTagDriver) (v : Version)
    (headRef : GoString) (r : WriteResults) (htag : r.tag.Err = none)
    (hshow : r.showTag.Err = none)
    (hdelete : Contains r.showTag.Output (d.Prefix ++ v.String) = true → r.deleteTag.Err = none) :
    (tagAndPush ctx g d v headRef r).1 = (pushTag ctx g (d.Prefix ++ v.String) r).1 := by
  unfold tagAndPush
  simp only [htag, hshow]
  by_cases hc : Contains r.showTag.Output (d.Prefix ++ v.String) = true
  · rw [if_pos hc]
    simp only [hdelete hc]
  · rw [if_neg hc]

theorem writeVersion_result_of_resolved (ctx : WriteContext) (g : GoString) (d : GitTagDriver)
    (v : Version) (params : Params) (r : WriteResults) (headRef : GoString) (ev : List Event)
    (hfetch : r.fetch.Err = none)
    (hresolve : resolveHeadRef ctx g d params r = (.returned (.ok headRef), ev)) :
    (writeVersion ctx g d v params r).result =
      .returned (tagAndPush ctx g d v headRef r).1 := by
  unfold writeVersion
  simp only [hfetch, hresolve]

/-- C6: when the reachability fetch, the commit resolution, the local tagging,
the remote tag lookup and (if performed) the remote tag deletion all succeed,
`writeVersion` returns `(false, nil)` if the output of the final push contains
either rejection marker, whatever the push's exit status; otherwise it returns
`(false, err)` when the push failed with `err` and `(true, nil)` when it
succeeded. -/
theorem writeVersion_push_classification (ctx : WriteContext) (g : GoString)
    (d : GitTagDriver) (v : Version) (params : Params) (r : WriteResults)
    (hfetch : r.fetch.Err = none)
    (hresolve : (params = none ∧ r.lsRemote.Err = none) ∨
      (∃ m repoStr headRef, params = some m ∧
        m.lookup "repo".toList = some (.str repoStr) ∧ r.log.Err = none ∧
        ctx.Unquote (TrimSpace r.log.Output) = .ok headRef))
    (htag : r.tag.Err = none) (hshow : r.showTag.Err = none)
    (hdelete : Contains r.showTag.Output (d.Prefix ++ v.String) = true → r.deleteTag.Err = none) :
    (Contains r.pushTag.Output ctx.pushRejectedString = true →
      (writeVersion ctx g d v params r).result = .returned (false, none)) ∧
    (Contains r.pushTag.Output ctx.pushRemoteRejectedString = true →
      (writeVersion ctx g d v params r).result = .returned (false, none)) ∧
    (Contains r.pushTag.Output ctx.pushRejectedString = false →
      Contains r.pushTag.Output ctx.pushRemoteRejectedString = false →
      (∀ err, r.pushTag.Err = some err →
        (writeVersion ctx g d v params r).result = .returned (false, some err)) ∧
      (r.pushTag.Err = none →
        (writeVersion ctx g d v params r).result = .returned (true, none))) := by
  have hres : ∃ headRef ev, resolveHeadRef ctx g d params r = (.returned (.ok headRef), ev) := by
    rcases hresolve with ⟨hp, hls⟩ | ⟨m, repoStr, headRef, hp, hlook, hlog, hunq⟩
    · subst hp
      simp only [resolveHeadRef, hls]
      exact ⟨_, _, rfl⟩
    · subst hp
      simp only [resolveHeadRef, hlook, hlog, hunq]
      exact ⟨_, _, rfl⟩
  obtain ⟨headRef, ev, hres⟩ := hres
  rw [writeVersion_result_of_resolved ctx g d v params r headRef ev hfetch hres,
    tagAndPush_result ctx g d v headRef r htag hshow hdelete, pushTag_result]
  refine ⟨fun h => ?_, fun h => ?_, fun h1 h2 => ⟨fun err he => ?_, fun he => ?_⟩⟩
  · rw [if_pos (Or.inl h)]
  · rw [if_pos (Or.inr h)]
  · rw [if_neg (by simp [h1, h2]), he]
  · rw [if_neg (by simp [h1, h2]), he]

/-- Witness of C6: a run whose push fails with a `[rejected]` line. -/
theorem writeVersion_push_classification_witness :
    rejectedWriteResults.pushTag.Err = some (.external "exit status 1".toList) ∧
    Contains rejectedWriteResults.pushTag.Output sampleContext.pushRejectedString = true ∧
    (writeVersion sampleContext "/tmp/semver-git-repo".toList sampleDriver ⟨1, 2, 3, [], []⟩
      none rejectedWriteResults).result = .returned (false, none) :=
  ⟨rfl, by decide,
    (writeVersion_push_classification sampleContext "/tmp/semver-git-repo".toList sampleDriver
      ⟨1, 2, 3, [], []⟩ none rejectedWriteResults rfl (Or.inl ⟨rfl, rfl⟩) rfl rfl
      (fun _ => rfl)).1 (by decide)⟩


theorem Split_head (sep : Char) (s : GoString) :
    ∃ rest, Split sep s = s.takeWhile (fun c => decide (c ≠ sep)) :: rest := by
  induction s with
  | nil => exact ⟨[], rfl⟩
  | cons c cs ih =>
    obtain ⟨rest, hrest⟩ := ih
    unfold Split
    by_cases hc : c = sep
    · rw [if_pos hc]
      refine ⟨Split sep cs, ?_⟩
      rw [List.takeWhile_cons_of_neg (by simpa using hc)]
    · rw [if_neg hc, hrest]
      refine ⟨rest, ?_⟩
      rw [List.takeWhile_cons_of_pos (by simpa using hc)]

theorem firstTabField_eq (s : GoString) :
    firstTabField s = s.takeWhile (fun c => decide (c ≠ '\t')) := by
  obtain ⟨rest, hrest⟩ := Split_head '\t' s
  unfold firstTabField
  rw [hrest]

/-- Every action of `tagAndPush` is the `git tag` command, a command with four
arguments, or a diagnostic write. -/
theorem tagAndPush_events (ctx : WriteContext) (g : GoString) (d : GitTagDriver) (v : Version)
    (headRef : GoString) (r : WriteResults) :
    (∃ rest, (tagAndPush ctx g d v headRef r).2 =
      .run (tagCmd ctx g (d.Prefix ++ v.String) headRef) :: rest ∧
      ∀ e ∈ rest, (∃ c, e = .run c ∧ c.Args.length = 4) ∨ ∃ t, e = .stderr t) := by
  unfold tagAndPush pushTag
  cases r.tag.Err with
  | some err => exact ⟨_, rfl, by simp⟩
  | none =>
    cases r.showTag.Err with
    | some err => exact ⟨_, rfl, by simp⟩
    | none =>
      simp only
      split_ifs
      · cases r.deleteTag.Err with
        | some err => exact ⟨_, rfl, by simp⟩
        | none => exact ⟨_, rfl, by simp [pushTagCmd]⟩
      · cases r.deleteTag.Err with
        | some err => exact ⟨_, rfl, by simp⟩
        | none => exact ⟨_, rfl, by simp [pushTagCmd]⟩
      · cases r.deleteTag.Err with
        | some err => exact ⟨_, rfl, by simp⟩
        | none =>
          cases r.pushTag.Err with
          | some err => exact ⟨_, rfl, by simp [pushTagCmd]⟩
          | none => exact ⟨_, rfl, by simp [pushTagCmd]⟩
      · exact ⟨_, rfl, by simp [pushTagCmd]⟩
      · exact ⟨_, rfl, by simp [pushTagCmd]⟩
      · cases r.pushTag.Err with
        | some err => exact ⟨_, rfl, by simp [pushTagCmd]⟩
        | none => exact ⟨_, rfl, by simp [pushTagCmd]⟩


/-- C7 (as stated, refuted): with a non-nil `params` map that has no `repo`
key, and every command succeeding, `writeVersion` panics at the type assertion
`repo.(string)` after the fetch and a diagnostic write; `ls-remote` is never
queried. -/
theorem writeVersion_params_without_repo :
    List.lookup "repo".toList [("file".toList, GoValue.str "version".toList)] = none ∧
    sampleWriteResults.fetch.Err = none ∧
    (writeVersion sampleContext "/tmp/semver-git-repo".toList sampleDriver ⟨1, 2, 3, [], []⟩
      (some [("file".toList, GoValue.str "version".toList)]) sampleWriteResults).result
      = .panicked ∧
    Event.run (lsRemoteCmd "/tmp/semver-git-repo".toList sampleDriver) ∉
      (writeVersion sampleContext "/tmp/semver-git-repo".toList sampleDriver ⟨1, 2, 3, [], []⟩
        (some [("file".toList, GoValue.str "version".toList)]) sampleWriteResults).events := by
  decide

/-- C7 (amended): for the nil `params` map, once the reachability fetch has
succeeded `writeVersion` does not panic, queries `git ls-remote origin <ref>`
with `<ref>` the configured branch, or `HEAD` when the branch is empty, never
runs the `log` query of the external-repository path, and, when the query
succeeds, tags the text before the first tab of its output. -/
theorem writeVersion_nil_params (ctx : WriteContext) (g : GoString) (d : GitTagDriver)
    (v : Version) (r : WriteResults) (hfetch : r.fetch.Err = none) :
    (writeVersion ctx g d v none r).result ≠ .panicked ∧
    Event.run ⟨g, ["git".toList, "ls-remote".toList, "origin".toList,
        if d.Branch = [] then "HEAD".toList else d.Branch]⟩ ∈
      (writeVersion ctx g d v none r).events ∧
    (∀ repoStr, Event.run (logCmd ctx repoStr) ∉ (writeVersion ctx g d v none r).events) ∧
    (r.lsRemote.Err = none →
      Event.run (tagCmd ctx g (d.Prefix ++ v.String)
          (r.lsRemote.Output.takeWhile (fun c => decide (c ≠ '\t')))) ∈
        (writeVersion ctx g d v none r).events ∧
      ∀ version headRef, Event.run (tagCmd ctx g version headRef) ∈
          (writeVersion ctx g d v none r).events →
        headRef = r.lsRemote.Output.takeWhile (fun c => decide (c ≠ '\t'))) := by
  have hcmd : lsRemoteCmd g d = ⟨g, ["git".toList, "ls-remote".toList, "origin".toList,
      if d.Branch = [] then "HEAD".toList else d.Branch]⟩ := by
    unfold lsRemoteCmd remoteRef
    by_cases hb : d.Branch = []
    · rw [if_neg (not_not.mpr hb), if_pos hb]
    · rw [if_pos hb, if_neg hb]
  rw [← hcmd]
  cases hls : r.lsRemote.Err with
  | some err =>
    have e : writeVersion ctx g d v none r =
        ⟨.returned (false, some err),
          [.run ⟨g, ["git".toList, "fetch".toList, "--tags".toList, "--dry-run".toList,
              "--depth=1".toList]⟩,
            .stderr ("Use the last hash at ".toList ++ remoteRef d),
            .run (lsRemoteCmd g d), .stderr r.lsRemote.Output]⟩ := by
      simp only [writeVersion, resolveHeadRef, hfetch, hls]
      rfl
    rw [e]
    refine ⟨by simp, by simp, ?_, fun h => by cases h⟩
    intro repoStr
    simp [logCmd, lsRemoteCmd]
  | none =>
    obtain ⟨rest, hrest, hall⟩ := tagAndPush_events ctx g d v (firstTabField r.lsRemote.Output) r
    have e : writeVersion ctx g d v none r =
        ⟨.returned (tagAndPush ctx g d v (firstTabField r.lsRemote.Output) r).1,
          [.run ⟨g, ["git".toList, "fetch".toList, "--tags".toList, "--dry-run".toList,
              "--depth=1".toList]⟩,
            .stderr ("Use the last hash at ".toList ++ remoteRef d),
            .run (lsRemoteCmd g d),
            .run (tagCmd ctx g (d.Prefix ++ v.String) (firstTabField r.lsRemote.Output))]
            ++ rest⟩ := by
      simp only [writeVersion, resolveHeadRef, hfetch, hls, hrest]
      rfl
    rw [e, firstTabField_eq]
    refine ⟨by simp, by simp, ?_, fun _ => ⟨by simp, ?_⟩⟩
    · intro repoStr hmem
      simp only [List.cons_append, List.nil_append, List.mem_cons] at hmem
      rcases hmem with h | h | h | h | h
      · simp [logCmd] at h
      · cases h
      · simp [logCmd, lsRemoteCmd] at h
      · simp [logCmd, tagCmd] at h
      · rcases hall _ h with ⟨c, hc, hlen⟩ | ⟨t, ht⟩
        · cases hc
          simp [logCmd] at hlen
        · cases ht
    · intro version headRef hmem
      simp only [List.cons_append, List.nil_append, List.mem_cons] at hmem
      rcases hmem with h | h | h | h | h
      · simp [tagCmd] at h
      · cases h
      · simp [tagCmd, lsRemoteCmd] at h
      · simp only [tagCmd, Event.run.injEq, Cmd.mk.injEq, List.cons.injEq, and_true, true_and] at h
        exact h.2
      · rcases hall _ h with ⟨c, hc, hlen⟩ | ⟨t, ht⟩
        · cases hc
          simp [tagCmd] at hlen
        · cases ht

/-- Witness of C7 (amended): a run without `params` in which `ls-remote`
answers `89abcdef<TAB>HEAD`. -/
theorem writeVersion_nil_params_witness :
    sampleWriteResults.fetch.Err = none ∧ sampleWriteResults.lsRemote.Err = none ∧
    Event.run ⟨"/tmp/semver-git-repo".toList, ["git".toList, "ls-remote".toList,
        "origin".toList, "HEAD".toList]⟩ ∈
      (writeVersion sampleContext "/tmp/semver-git-repo".toList sampleDriver ⟨1, 2, 3, [], []⟩
        none sampleWriteResults).events ∧
    Event.run (tagCmd sampleContext "/tmp/semver-git-repo".toList "v1.2.3".toList
        "89abcdef".toList) ∈
      (writeVersion sampleContext "/tmp/semver-git-repo".toList sampleDriver ⟨1, 2, 3, [], []⟩
        none sampleWriteResults).events :=
  ⟨rfl, rfl,
    (writeVersion_nil_params sampleContext "/tmp/semver-git-repo".toList sampleDriver
      ⟨1, 2, 3, [], []⟩ sampleWriteResults rfl).2.1,
    ((writeVersion_nil_params sampleContext "/tmp/semver-git-repo".toList sampleDriver
      ⟨1, 2, 3, [], []⟩ sampleWriteResults rfl).2.2.2 rfl).1⟩


/-- C8 (as stated, refuted): a driver with both the local path and the URI
set is not rejected: `setUpRepo` returns a nil error whether the path exists
or not. -/
theorem setUpRepo_both_set_accepted :
    bothSetDriver.Repository ≠ [] ∧ bothSetDriver.URI ≠ [] ∧
    (setUpRepo "/tmp/semver-git-repo".toList bothSetDriver pathsAbsent).err = none ∧
    (setUpRepo "/tmp/semver-git-repo".toList bothSetDriver pathsExist).err = none := by
  decide

/-- C8 (amended): `setUpRepo` rejects a configuration that sets neither the
local path nor the URI: it returns a non-nil error whatever the file-system
state and command results. A driver with the local path set is handled as a
local-path configuration whatever its URI: error, working directory, prefix
and actions do not depend on the URI. -/
theorem setUpRepo_configuration (g : GoString) (d : GitTagDriver) (r : SetUpResults) :
    (d.Repository = [] → d.URI = [] →
      (setUpRepo g d r).err = some .notConfigured ∧ (setUpRepo g d r).err ≠ none) ∧
    (d.Repository ≠ [] → ∀ uri,
      (setUpRepo g { d with URI := uri } r).err = (setUpRepo g d r).err ∧
      (setUpRepo g { d with URI := uri } r).gitRepoDir = (setUpRepo g d r).gitRepoDir ∧
      (setUpRepo g { d with URI := uri } r).driver.Prefix = (setUpRepo g d r).driver.Prefix ∧
      (setUpRepo g { d with URI := uri } r).events = (setUpRepo g d r).events) := by
  constructor
  · intro h1 h2
    have e : (setUpRepo g d r).err = some .notConfigured := by
      unfold setUpRepo
      rw [if_neg (not_not.mpr h1), if_neg (not_not.mpr h2)]
    rw [e]
    exact ⟨rfl, by simp⟩
  · intro h uri
    unfold setUpRepo
    simp only [h, ne_eq, not_false_eq_true, if_true]
    cases r.statRepository with
    | none => exact ⟨rfl, rfl, rfl, rfl⟩
    | some err =>
      refine ⟨rfl, rfl, ?_, rfl⟩
      unfold defaultPrefix
      simp only
      split_ifs <;> rfl

/-- Witness of C8 (amended): a driver with neither setting is rejected, and
for a driver with a local path the URI does not change the outcome. -/
theorem setUpRepo_configuration_witness :
    unboundDriver.Repository = [] ∧ unboundDriver.URI = [] ∧
    (setUpRepo "/tmp/semver-git-repo".toList unboundDriver pathsExist).err ≠ none ∧
    bothSetDriver.Repository ≠ [] ∧
    (setUpRepo "/tmp/semver-git-repo".toList { bothSetDriver with URI := [] } pathsAbsent).err =
      (setUpRepo "/tmp/semver-git-repo".toList bothSetDriver pathsAbsent).err :=
  ⟨rfl, rfl,
    ((setUpRepo_configuration "/tmp/semver-git-repo".toList unboundDriver pathsExist).1
      rfl rfl).2,
    by decide,
    ((setUpRepo_configuration "/tmp/semver-git-repo".toList bothSetDriver pathsAbsent).2
      (by decide) []).1⟩

/-- C9 (the code at the failing input): with a local path that exists and an
empty prefix, `setUpRepo` returns a nil error and leaves the prefix empty and
the working directory unchanged, while on the same driver with the path
absent, and on a URI driver, the prefix becomes `v`. -/
theorem setUpRepo_existing_path_keeps_empty_prefix :
    (setUpRepo "/tmp/semver-git-repo".toList localPathDriver pathsExist).err = none ∧
    (setUpRepo "/tmp/semver-git-repo".toList localPathDriver pathsExist).driver.Prefix = [] ∧
    (setUpRepo "/tmp/semver-git-repo".toList localPathDriver pathsExist).gitRepoDir =
      "/tmp/semver-git-repo".toList ∧
    (setUpRepo "/tmp/semver-git-repo".toList localPathDriver pathsAbsent).err = none ∧
    (setUpRepo "/tmp/semver-git-repo".toList localPathDriver pathsAbsent).driver.Prefix =
      "v".toList ∧
    (setUpRepo "/tmp/semver-git-repo".toList { sampleDriver with Prefix := [] }
      pathsExist).driver.Prefix = "v".toList := by
  decide

/-- C10 (as stated, refuted): with the fetch succeeding and prefix `v`, a
listing that succeeds with empty output and a listing that reports the single
tag `v0.0.0` give the same result `(0.0.0, true, nil)`. -/
theorem readVersion_empty_listing_same_as_zero_tag :
    (readVersion "/tmp/semver-git-repo".toList sampleDriver ⟨none, ⟨[], none⟩⟩).result =
      (Version.zero, true, none) ∧
    (readVersion "/tmp/semver-git-repo".toList sampleDriver
      ⟨none, ⟨"v0.0.0\n".toList, none⟩⟩).result = (Version.zero, true, none) ∧
    (readVersion "/tmp/semver-git-repo".toList sampleDriver ⟨none, ⟨[], none⟩⟩).result =
      (readVersion "/tmp/semver-git-repo".toList sampleDriver
        ⟨none, ⟨"v0.0.0\n".toList, none⟩⟩).result := by
  decide

/-- C10 (amended): with the fetch succeeding, a listing that fails with one
of the two benign markers gives `(0.0.0, false, nil)`, and this differs from
the result of a run whose listing reports exactly the tag `<prefix>0.0.0`; a
listing that succeeds with empty output gives `(0.0.0, true, nil)`. -/
theorem readVersion_not_found (g : GoString) (d : GitTagDriver) (out : GoString)
    (listErr : GoError)
    (hbenign : Contains out nothingToDescribe = true ∨ Contains out notAValidObject = true) :
    (readVersion g d ⟨none, ⟨out, some listErr⟩⟩).result = (Version.zero, false, none) ∧
    (readVersion g d ⟨none, ⟨out, some listErr⟩⟩).result ≠
      (readVersion g d ⟨none, ⟨d.Prefix ++ "0.0.0\n".toList, none⟩⟩).result ∧
    (readVersion g d ⟨none, ⟨[], none⟩⟩).result = (Version.zero, true, none) := by
  have e1 : (readVersion g d ⟨none, ⟨out, some listErr⟩⟩).result = (Version.zero, false, none) := by
    simp only [readVersion]
    rw [if_pos (by simpa using hbenign)]
  refine ⟨e1, ?_, rfl⟩
  rw [e1]
  simp only [readVersion]
  rcases hcv : currentVersion d.Prefix (d.Prefix ++ "0.0.0\n".toList) with ⟨version, _ | err⟩
  · simp
  · simp

/-- Witness of C10 (amended): a listing that fails with the message of an
empty repository. -/
theorem readVersion_not_found_witness :
    Contains "fatal: No names found, cannot describe anything.\n".toList nothingToDescribe
      = true ∧
    (readVersion "/tmp/semver-git-repo".toList sampleDriver
      ⟨none, ⟨"fatal: No names found, cannot describe anything.\n".toList,
        some (.external "exit status 128".toList)⟩⟩).result = (Version.zero, false, none) :=
  ⟨by decide,
    (readVersion_not_found "/tmp/semver-git-repo".toList sampleDriver
      "fatal: No names found, cannot describe anything.\n".toList
      (.external "exit status 128".toList) (Or.inl (by decide))).1⟩

end Driver
